import Mathlib

/-!
# RF signal-chain analyser (`archi_verif.js`): cascade engine

A shallow embedding of the cascade computation of `src/javascript/archi_verif.js`
(`dbToLin`, `linToDb`, `calcNF`, `calcP1db`, `computeAll`).

JavaScript numbers are embedded as `JSNum K`: a finite value in an ordered field `K`,
`+Infinity`, `-Infinity` or `NaN`, with the special-value rules of JavaScript arithmetic
and comparison.  Arithmetic on finite values is exact: rounding, overflow and underflow
of IEEE doubles are not modelled, and zero carries no sign (a zero divisor counts as `+0`).
The library functions `Math.pow(10, ·)` and `Math.log10` on finite arguments are
parameters (`MathFns`).  Two instances are used: `realMath`, the real functions, and
`flushMath`, the real functions with `Math.pow(10, y) = 0` for `y ≤ -324`, as doubles
underflow.  The general theorems assume of `Math.pow` at most that it is not negative or
that `Math.pow(10, 0) = 1`, and state what the code computes through the operations of the
code, in their order.
-/

namespace ArchiVerif

/-- A JavaScript number: finite, `Infinity`, `-Infinity` or `NaN`. -/
inductive JSNum (K : Type) where
  | fin (x : K)
  | pinf
  | ninf
  | nan
  deriving DecidableEq, Repr

namespace JSNum

variable {K : Type} [LinearOrderedField K]

/-- JavaScript `isFinite(x)` on a number. -/
def isFinite : JSNum K → Bool
  | fin _ => true
  | _ => false

/-- JavaScript unary minus. -/
def neg : JSNum K → JSNum K
  | fin x => fin (-x)
  | pinf => ninf
  | ninf => pinf
  | nan => nan

/-- JavaScript `a + b`. -/
def add : JSNum K → JSNum K → JSNum K
  | fin x, fin y => fin (x + y)
  | nan, _ => nan
  | _, nan => nan
  | pinf, ninf => nan
  | ninf, pinf => nan
  | pinf, _ => pinf
  | _, pinf => pinf
  | ninf, _ => ninf
  | _, ninf => ninf

/-- JavaScript `a - b`. -/
def sub (a b : JSNum K) : JSNum K := add a (neg b)

/-- An infinity with the sign of the finite factor `x`; `0 * Infinity` is `NaN`. -/
def signedInf (x : K) (positive : Bool) : JSNum K :=
  if 0 < x then (if positive then pinf else ninf)
  else if x < 0 then (if positive then ninf else pinf)
  else nan

/-- JavaScript `a * b`. -/
def mul : JSNum K → JSNum K → JSNum K
  | fin x, fin y => fin (x * y)
  | nan, _ => nan
  | _, nan => nan
  | fin x, pinf => signedInf x true
  | fin x, ninf => signedInf x false
  | pinf, fin y => signedInf y true
  | ninf, fin y => signedInf y false
  | pinf, pinf => pinf
  | ninf, ninf => pinf
  | pinf, ninf => ninf
  | ninf, pinf => ninf

/-- JavaScript `a / b` (a zero divisor is taken as `+0`). -/
def div : JSNum K → JSNum K → JSNum K
  | fin x, fin y => if y = 0 then signedInf x true else fin (x / y)
  | nan, _ => nan
  | _, nan => nan
  | fin _, pinf => fin 0
  | fin _, ninf => fin 0
  | pinf, fin y => if y < 0 then ninf else pinf
  | ninf, fin y => if y < 0 then pinf else ninf
  | pinf, pinf => nan
  | ninf, ninf => nan
  | pinf, ninf => nan
  | ninf, pinf => nan

instance : Neg (JSNum K) := ⟨neg⟩
instance : Add (JSNum K) := ⟨add⟩
instance : Sub (JSNum K) := ⟨sub⟩
instance : Mul (JSNum K) := ⟨mul⟩
instance : Div (JSNum K) := ⟨div⟩

/-- JavaScript `a < b` (false whenever an operand is `NaN`). -/
def lt : JSNum K → JSNum K → Bool
  | fin x, fin y => decide (x < y)
  | nan, _ => false
  | _, nan => false
  | ninf, ninf => false
  | ninf, _ => true
  | pinf, _ => false
  | fin _, pinf => true
  | fin _, ninf => false

/-- JavaScript `a > b`. -/
def gt (a b : JSNum K) : Bool := lt b a

/-- JavaScript `a === b` on numbers (`NaN` is equal to nothing). -/
def strictEq : JSNum K → JSNum K → Bool
  | fin x, fin y => decide (x = y)
  | pinf, pinf => true
  | ninf, ninf => true
  | _, _ => false

/-- JavaScript `a <= b` (false whenever an operand is `NaN`). -/
def le (a b : JSNum K) : Bool := lt a b || strictEq a b

/-- JavaScript `Math.abs(x)`. -/
def abs : JSNum K → JSNum K
  | fin x => fin |x|
  | pinf => pinf
  | ninf => pinf
  | nan => nan

/-- Truthiness of a number: everything except `0` and `NaN`. -/
def truthy : JSNum K → Bool
  | fin x => decide (x ≠ 0)
  | pinf => true
  | ninf => true
  | nan => false

end JSNum

open JSNum

variable {K : Type} [LinearOrderedField K]

/-- The library functions `Math.pow(10, y)` and `Math.log10(x)` on finite arguments. -/
structure MathFns (K : Type) where
  pow10 : K → K
  log10 : K → K

/-- The laws of the real functions `y ↦ 10 ^ y` and `log₁₀`.  They hold of `realMath`, not of
`Math.pow` and `Math.log10` on doubles (`Math.pow(10, -400)` is `0`, see `flushMath`); they
are used for evaluations with the real functions only. -/
structure MathFns.Lawful (M : MathFns K) : Prop where
  pow10_pos : ∀ y, 0 < M.pow10 y
  pow10_zero : M.pow10 0 = 1
  log10_pow10 : ∀ y, M.log10 (M.pow10 y) = y
  log10_tenPow : ∀ n : ℕ, M.log10 ((10 : K) ^ n) = n

/-- JavaScript `Math.pow(10, y)`. -/
def mathPow10 (M : MathFns K) : JSNum K → JSNum K
  | fin y => fin (M.pow10 y)
  | pinf => pinf
  | ninf => fin 0
  | nan => nan

/-- JavaScript `Math.log10(x)`. -/
def mathLog10 (M : MathFns K) : JSNum K → JSNum K
  | fin x => if 0 < x then fin (M.log10 x) else if x = 0 then ninf else nan
  | pinf => pinf
  | ninf => nan
  | nan => nan

/-- The literal `1e300`. -/
def sentinel : K := 10 ^ 300

/-- Source `dbToLin(db)`:
`if (!isFinite(db)) return 1e300; if (db > 500) return 1e300; return Math.pow(10, db / 10);` -/
def dbToLin (M : MathFns K) (db : JSNum K) : JSNum K :=
  if !isFinite db then fin sentinel
  else if gt db (fin 500) then fin sentinel
  else mathPow10 M (db / fin 10)

/-- Source `linToDb(lin)`:
`if (lin <= 0) return -Infinity; return 10 * Math.log10(lin);` -/
def linToDb (M : MathFns K) (lin : JSNum K) : JSNum K :=
  if le lin (fin 0) then ninf
  else fin 10 * mathLog10 M lin

/-- The values of the type selector of a stage card. -/
inductive StageType where
  | ampli
  | filter
  | atten
  | switch
  | mixer
  deriving DecidableEq, Repr

/-- A stage record of the global `stages` array.  A numeric field is `none` when it is
`undefined` or `null`. -/
structure Stage (K : Type) where
  name : String
  type : StageType
  gain_dB : Option (JSNum K)
  nf_dB : Option (JSNum K)
  insertion_loss_dB : Option (JSNum K)
  op1db_dBm : Option (JSNum K)

/-- JavaScript `v || d` for a numeric field `v`: `v` when it is truthy, else `d`. -/
def jsOr (v : Option (JSNum K)) (d : JSNum K) : JSNum K :=
  match v with
  | some x => if truthy x then x else d
  | none => d

/-- The per-type branch of the `forEach` body of `computeAll`: the pair
`(gain_dB, nf_dB)` of local variables after the `if / else if / else`. -/
def effectiveDb (s : Stage K) : JSNum K × JSNum K :=
  if s.type = StageType.filter ∨ s.type = StageType.atten ∨ s.type = StageType.switch then
    (-(jsOr s.insertion_loss_dB (fin 0)), jsOr s.insertion_loss_dB (fin 0))
  else if s.type = StageType.mixer then
    let gain_dB := -(jsOr s.insertion_loss_dB (fin 0))
    (gain_dB, jsOr s.nf_dB (JSNum.abs gain_dB))
  else
    let gain_dB := jsOr s.gain_dB (fin 0)
    (gain_dB, match s.nf_dB with
              | some v => v
              | none => JSNum.abs gain_dB)

/-- The local `op1` of the `forEach` body: `s.op1db_dBm || 1000`. -/
def stageOp1 (s : Stage K) : JSNum K := jsOr s.op1db_dBm (fin 1000)

/-- The local `p1_lin` of the `forEach` body:
`(op1 > 500) ? 1e300 : Math.pow(10, op1 / 10)`. -/
def stageP1Lin (M : MathFns K) (s : Stage K) : JSNum K :=
  if gt (stageOp1 s) (fin 500) then fin sentinel
  else mathPow10 M (stageOp1 s / fin 10)

/-- An element of `chainForNF`. -/
structure NFEntry (K : Type) where
  gain_lin : JSNum K
  nf_lin : JSNum K
  name : String

/-- An element of `chainForP1`. -/
structure P1Entry (K : Type) where
  gain_lin : JSNum K
  p1_lin : JSNum K
  name : String
  op1 : JSNum K

/-- The object pushed on `chainForNF` for a stage. -/
def toNFEntry (M : MathFns K) (s : Stage K) : NFEntry K :=
  { gain_lin := dbToLin M (effectiveDb s).1, nf_lin := dbToLin M (effectiveDb s).2,
    name := s.name }

/-- The object pushed on `chainForP1` for a stage. -/
def toP1Entry (M : MathFns K) (s : Stage K) : P1Entry K :=
  { gain_lin := dbToLin M (effectiveDb s).1, p1_lin := stageP1Lin M s,
    name := s.name, op1 := stageOp1 s }

/-- One iteration of the loop of `calcNF` on the pair `(nf_tot, g_prod)`:
`nf_tot += (chain[i].nf_lin - 1) / g_prod; g_prod *= chain[i].gain_lin;` -/
def nfStep (st : JSNum K × JSNum K) (c : NFEntry K) : JSNum K × JSNum K :=
  (st.1 + (c.nf_lin - fin 1) / st.2, st.2 * c.gain_lin)

/-- Source `calcNF(chain)`. -/
def calcNF (M : MathFns K) : List (NFEntry K) → JSNum K
  | [] => nan
  | c0 :: rest => linToDb M (rest.foldl nfStep (c0.nf_lin, c0.gain_lin)).1

/-- The first loop of `calcP1db`, from `idx = N-1` down to `0`:
`gain_after[idx] = prod; prod *= chain[idx].gain_lin;`.
Returns the array `gain_after` and the final `prod`. -/
def gainAfterLoop (chain : List (P1Entry K)) : List (JSNum K) × JSNum K :=
  chain.foldr (fun c st => (st.2 :: st.1, st.2 * c.gain_lin)) ([], fin 1)

/-- One iteration of the second loop of `calcP1db` on `inv_sum`, for the stage `c` and its
`gain_after[i]`: `if (!isFinite(p) || p<=0) continue; inv_sum += 1 / (p * gain_after[i]);` -/
def invSumStep (inv_sum : JSNum K) (cg : P1Entry K × JSNum K) : JSNum K :=
  if !isFinite cg.1.p1_lin || le cg.1.p1_lin (fin 0) then inv_sum
  else inv_sum + fin 1 / (cg.1.p1_lin * cg.2)

/-- Source `calcP1db(chain)`. -/
def calcP1db (M : MathFns K) (chain : List (P1Entry K)) : JSNum K :=
  if chain.length = 0 then ninf
  else
    let gain_after := (gainAfterLoop chain).1
    let inv_sum := (chain.zip gain_after).foldl invSumStep (fin 0)
    if strictEq inv_sum (fin 0) then pinf
    else linToDb M (fin 1 / inv_sum)

/-- The four numbers computed by `computeAll` on a non-empty `stages`. -/
structure CascadeValues (K : Type) where
  gainTotal_dB : JSNum K
  nfTotal_dB : JSNum K
  p1_out : JSNum K
  ip1_in : JSNum K

/-- The body of `computeAll` after the empty-chain guard, up to `ip1_in`. -/
def cascadeValues (M : MathFns K) (stages : List (Stage K)) : CascadeValues K :=
  let chainForNF := stages.map (toNFEntry M)
  let chainForP1 := stages.map (toP1Entry M)
  let gprod := chainForNF.foldl (fun a c => a * c.gain_lin) (fin 1)
  let gainTotal_dB := linToDb M gprod
  let nfTotal_dB := calcNF M chainForNF
  let p1_out := calcP1db M chainForP1
  let ip1_in := p1_out - gainTotal_dB
  { gainTotal_dB := gainTotal_dB, nfTotal_dB := nfTotal_dB, p1_out := p1_out,
    ip1_in := ip1_in }

/-- What an output element shows: `isFinite(x) ? x.toFixed(2) : '—'`.  `none` is the
placeholder; the two-decimal formatting of a finite value is not modelled. -/
def shown : JSNum K → Option K
  | fin x => some x
  | _ => none

/-- The four output elements written by `computeAll`. -/
structure Readout (K : Type) where
  gainEl : Option K
  nfEl : Option K
  opOutEl : Option K
  ipInEl : Option K

/-- Source `computeAll()`, as a function of the global `stages`. -/
def computeAll (M : MathFns K) (stages : List (Stage K)) : Readout K :=
  if stages.length = 0 then
    { gainEl := none, nfEl := none, opOutEl := none, ipInEl := none }
  else
    let v := cascadeValues M stages
    { gainEl := shown v.gainTotal_dB, nfEl := shown v.nfTotal_dB,
      opOutEl := shown v.p1_out, ipInEl := shown v.ip1_in }

namespace JSNum

/-- Case analysis on a JavaScript number by the sign of a finite value. -/
theorem signCases {P : JSNum K → Prop} (hn : ∀ x : K, x < 0 → ¬ 0 < x → P (fin x))
    (hz : P (fin 0)) (hp : ∀ x : K, 0 < x → ¬ x < 0 → P (fin x))
    (h1 : P pinf) (h2 : P ninf) (h3 : P nan) : ∀ a, P a := by
  intro a
  cases a with
  | fin x =>
    rcases lt_trichotomy x 0 with hx | hx | hx
    · exact hn x hx hx.not_lt
    · exact hx ▸ hz
    · exact hp x hx hx.not_lt
  | pinf => exact h1
  | ninf => exact h2
  | nan => exact h3

instance : Zero (JSNum K) := ⟨fin 0⟩

instance : One (JSNum K) := ⟨fin 1⟩

/-- JavaScript addition (without rounding) is a commutative monoid with unit `0`. -/
instance : AddCommMonoid (JSNum K) where
  add_assoc a b c := by
    show add (add a b) c = add a (add b c)
    cases a <;> cases b <;> cases c <;> simp [add, add_assoc]
  add_comm a b := by
    show add a b = add b a
    cases a <;> cases b <;> simp [add, add_comm]
  zero_add a := by
    show add (fin 0) a = a
    cases a <;> simp [add]
  add_zero a := by
    show add a (fin 0) = a
    cases a <;> simp [add]
  nsmul := nsmulRec

/-- JavaScript multiplication (without rounding) is a commutative monoid with unit `1`. -/
instance : CommMonoid (JSNum K) where
  mul_assoc a b c := by
    show mul (mul a b) c = mul a (mul b c)
    induction a using signCases <;> induction b using signCases <;>
      induction c using signCases <;>
      simp [mul, signedInf, mul_assoc, mul_pos_iff, mul_neg_iff, *]
  mul_comm a b := by
    show mul a b = mul b a
    cases a <;> cases b <;> simp [mul, mul_comm]
  one_mul a := by
    show mul (fin 1) a = a
    cases a <;> simp [mul, signedInf]
  mul_one a := by
    show mul a (fin 1) = a
    cases a <;> simp [mul, signedInf]

end JSNum

/-- The linear noise factor `F_i` of stage `i` of a chain (`NaN` outside the chain). -/
def nfAt : List (NFEntry K) → ℕ → JSNum K
  | [], _ => nan
  | c :: _, 0 => c.nf_lin
  | _ :: r, i + 1 => nfAt r i

/-- The linear gain `G_i` of stage `i` of a chain (`NaN` outside the chain). -/
def gainAt : List (NFEntry K) → ℕ → JSNum K
  | [], _ => nan
  | c :: _, 0 => c.gain_lin
  | _ :: r, i + 1 => gainAt r i

/-- The Friis total of the specification, in its words:
`F_total = F_0 + Σ_{i=1}^{N-1} (F_i − 1) / (G_0·G_1·…·G_{i-1})`. -/
def friisTotal (chain : List (NFEntry K)) : JSNum K :=
  nfAt chain 0 + ∑ i in Finset.Ico 1 chain.length,
    (nfAt chain i - fin 1) / ∏ j in Finset.range i, gainAt chain j

/-- The linear compression value `p1_lin_i` of stage `i` (`NaN` outside the chain). -/
def p1At : List (P1Entry K) → ℕ → JSNum K
  | [], _ => nan
  | c :: _, 0 => c.p1_lin
  | _ :: r, i + 1 => p1At r i

/-- The linear gain of stage `i` of a compression chain (`NaN` outside the chain). -/
def p1GainAt : List (P1Entry K) → ℕ → JSNum K
  | [], _ => nan
  | c :: _, 0 => c.gain_lin
  | _ :: r, i + 1 => p1GainAt r i

/-- The specification's `gain_after_i`: the product of the linear gains of all stages after
stage `i` (the empty product `1` for the last stage). -/
def gainAfter (chain : List (P1Entry K)) (i : ℕ) : JSNum K :=
  ∏ j in Finset.Ico (i + 1) chain.length, p1GainAt chain j

/-- A stage limits the cascade when its `p1_lin` is finite and `> 0`. -/
def limiting (p : JSNum K) : Bool := isFinite p && gt p (fin 0)

/-- The specification's reciprocal sum `S = Σ_i 1 / (p1_lin_i · gain_after_i)` over the
limiting stages. -/
def invSum (chain : List (P1Entry K)) : JSNum K :=
  ∑ i in (Finset.range chain.length).filter (fun i => limiting (p1At chain i) = true),
    fin 1 / (p1At chain i * gainAfter chain i)

/-! ## The stage list manager -/

/-- The start position of `Array.prototype.splice(start, …)` on an array of length `len`:
a negative `start` counts from the end, and the result is clamped to `[0, len]`. -/
def spliceStart (len : ℕ) (start : ℤ) : ℕ :=
  if start < 0 then ((len : ℤ) + start).toNat else min start.toNat len

/-- JavaScript `a.splice(start, deleteCount, ...items)`: the removed elements and the array
afterwards. -/
def splice {α : Type} (a : List α) (start deleteCount : ℤ) (items : List α) :
    List α × List α :=
  let s := spliceStart a.length start
  let d := min deleteCount.toNat (a.length - s)
  ((a.drop s).take d, a.take s ++ items ++ a.drop (s + d))

/-- JavaScript `a.splice(start)`: everything from `start` on is removed. -/
def spliceFrom {α : Type} (a : List α) (start : ℤ) : List α × List α :=
  (a.drop (spliceStart a.length start), a.take (spliceStart a.length start))

/-- Source `defaultStage(i)`; `t('default_chain_prefix.filter')` is the string `Filtre`. -/
def defaultStage (i : ℕ) : Stage K :=
  { name := "Filtre " ++ toString (i + 1), type := StageType.ampli, gain_dB := some (fin 15),
    nf_dB := some (fin 3), insertion_loss_dB := some (fin 1), op1db_dBm := some (fin 23) }

/-- The `input` handler of `nStagesInput`, as a function of the global `stages`; `parsed` is
`parseInt(e.target.value, 10)`, `none` standing for `NaN`. -/
def nStagesInputHandler (stages : List (Stage K)) (parsed : Option ℤ) : List (Stage K) :=
  let v : ℤ := match parsed with
    | some n => n
    | none => 0
  let v : ℤ := max 0 (min 100 v)
  if v > stages.length then
    stages ++ (List.range' stages.length (v.toNat - stages.length)).map defaultStage
  else if v < stages.length then (spliceFrom stages v).2
  else stages

/-- The `click` handler of the remove button of a card, as a function of the global
`stages`; `i` is `parseInt(root.dataset.index, 10)`, `none` standing for `NaN`. -/
def removeClick {α : Type} (stages : List α) (i : Option ℤ) : List α :=
  match i with
  | none => stages
  | some i => (splice stages i 1 []).2

/-- The `drop` handler of the stage container, as a function of the global `stages`, an
array whose elements may be `undefined` (`none`); `srcIdx` is the parsed drag payload
(`none` for `NaN`) and `destIdx` the insertion index found from the pointer position. -/
def dropHandler {α : Type} (stages : List (Option α)) (srcIdx : Option ℤ) (destIdx : ℕ) :
    List (Option α) :=
  match srcIdx with
  | none => stages
  | some src =>
    let r := splice stages src 1 []
    let moved : Option α := r.1.head?.join
    let realDest : ℤ := if src < destIdx then (destIdx : ℤ) - 1 else destIdx
    let realDest : ℤ := if realDest < 0 then 0 else realDest
    (splice r.2 realDest 0 [moved]).2

/-- Source `onCardDrop(ev)`, as a function of the global `stages`; `cardIdx` is the parsed
index of the card under the pointer and `insertBefore` tells whether the pointer is above
its midpoint.  Without a card under the pointer the source throws before it touches
`stages`; that case is not represented. -/
def onCardDrop {α : Type} (stages : List (Option α)) (srcIdx cardIdx : Option ℤ)
    (insertBefore : Bool) : List (Option α) :=
  match srcIdx, cardIdx with
  | some src, some card =>
    let destIdx : ℤ := if insertBefore then card else card + 1
    let r := splice stages src 1 []
    let moved : Option α := r.1.head?.join
    let realDest : ℤ := if src < destIdx then destIdx - 1 else destIdx
    (splice r.2 realDest 0 [moved]).2
  | _, _ => stages

/-- A JavaScript number that is finite and strictly positive. -/
def IsPos (a : JSNum K) : Prop := ∃ x : K, 0 < x ∧ a = fin x

/-- The real functions `y ↦ 10 ^ y` and `log₁₀`, the exact counterparts of
`Math.pow(10, y)` and `Math.log10(x)`. -/
noncomputable def realMath : MathFns ℝ :=
  { pow10 := fun y => (10 : ℝ) ^ y, log10 := fun x => Real.logb 10 x }

/-- `Math.pow(10, y)` and `Math.log10` as the real functions, with the underflow of doubles:
`Math.pow(10, y)` is `0` once `10 ^ y` is below the smallest double (`y ≤ -324`). -/
noncomputable def flushMath : MathFns ℝ :=
  { pow10 := fun y => if y ≤ -324 then 0 else (10 : ℝ) ^ y, log10 := fun x => Real.logb 10 x }

/-- A running reciprocal sum that is a positive finite number or `+Infinity`. -/
def PosOrInf (a : JSNum K) : Prop := IsPos a ∨ a = pinf

/-- A JavaScript number that is finite and not negative. -/
def IsNonneg (a : JSNum K) : Prop := ∃ x : K, 0 ≤ x ∧ a = fin x

/-- The pair `(nf_tot, g_prod)` of `calcNF` once the first `k ≥ 1` stages of a non-empty chain
are processed. -/
def nfStateAfter : List (NFEntry K) → ℕ → JSNum K × JSNum K
  | [], _ => (nan, nan)
  | c0 :: rest, k => (rest.take (k - 1)).foldl nfStep (c0.nf_lin, c0.gain_lin)

/-- The `inv_sum` of `calcP1db` after the first `k` iterations of its second loop. -/
def invSumAfter (chain : List (P1Entry K)) (k : ℕ) : JSNum K :=
  ((chain.zip (gainAfterLoop chain).1).take k).foldl invSumStep (fin 0)

/-- The second loop of `calcP1db` resumed at stage `k` from the value `acc` of `inv_sum`. -/
def invSumFrom (chain : List (P1Entry K)) (k : ℕ) (acc : JSNum K) : JSNum K :=
  ((chain.zip (gainAfterLoop chain).1).drop k).foldl invSumStep acc

/-- The product of the gains of the stages from position `k` on, as the first loop of
`calcP1db` computes it. -/
def gainFrom (chain : List (P1Entry K)) (k : ℕ) : JSNum K :=
  (gainAfterLoop (chain.drop k)).2

/-- The end of `calcP1db`, from the final `inv_sum`:
`if (inv_sum === 0) return Infinity; const Ptot = 1 / inv_sum; return linToDb(Ptot);` -/
def p1FromInvSum (M : MathFns K) (inv_sum : JSNum K) : JSNum K :=
  if strictEq inv_sum (fin 0) then pinf else linToDb M (fin 1 / inv_sum)

/-- The real functions satisfy the laws. -/
theorem realMath_lawful : realMath.Lawful where
  pow10_pos y := Real.rpow_pos_of_pos (by norm_num) y
  pow10_zero := Real.rpow_zero 10
  log10_pow10 y := Real.logb_rpow (by norm_num) (by norm_num)
  log10_tenPow n := by
    show Real.logb 10 ((10 : ℝ) ^ n) = n
    rw [← Real.rpow_natCast, Real.logb_rpow (by norm_num) (by norm_num)]

/-! ## Arithmetic on finite values -/

@[simp]
theorem fin_add_fin (x y : K) : (fin x + fin y : JSNum K) = fin (x + y) := rfl

@[simp]
theorem fin_mul_fin (x y : K) : (fin x * fin y : JSNum K) = fin (x * y) := rfl

@[simp]
theorem fin_sub_fin (x y : K) : (fin x - fin y : JSNum K) = fin (x - y) := by
  show add (fin x) (neg (fin y)) = _
  simp [add, neg, sub_eq_add_neg]

@[simp]
theorem neg_fin (x : K) : (-(fin x) : JSNum K) = fin (-x) := rfl

theorem fin_div_fin (x : K) {y : K} (hy : y ≠ 0) : (fin x / fin y : JSNum K) = fin (x / y) := by
  show div (fin x) (fin y) = _
  simp [div, hy]

@[simp]
theorem fin_div_ten (x : K) : (fin x / fin 10 : JSNum K) = fin (x / 10) :=
  fin_div_fin x (by norm_num)

/-! ## The cascade formulas -/

/-- The loop of `calcNF` from the state `(nf, g)`: the partial Friis sum and the running
gain product. -/
theorem foldl_nfStep (rest : List (NFEntry K)) (nf g : JSNum K) :
    rest.foldl nfStep (nf, g) =
      (nf + ∑ i in Finset.range rest.length,
          (nfAt rest i - fin 1) / (g * ∏ j in Finset.range i, gainAt rest j),
        g * ∏ j in Finset.range rest.length, gainAt rest j) := by
  induction rest generalizing nf g with
  | nil => simp
  | cons c r ih =>
    rw [List.foldl_cons, nfStep, ih]
    simp only [List.length_cons, Finset.sum_range_succ', Finset.prod_range_succ', nfAt, gainAt,
      Finset.range_zero, Finset.prod_empty, mul_one]
    refine Prod.ext ?_ ?_
    · simp only
      rw [add_assoc, add_comm ((c.nf_lin - fin 1) / g)]
      congr 2
      refine Finset.sum_congr rfl fun i _ => ?_
      rw [mul_assoc, mul_comm c.gain_lin]
    · simp only
      rw [mul_assoc, mul_comm c.gain_lin]

/-- C1: for every chain of `N ≥ 1` stages, `calcNF` returns `linToDb` of the Friis total
`F_0 + Σ_{i=1}^{N-1} (F_i − 1) / (G_0·…·G_{i-1})`. -/
theorem calcNF_friis (M : MathFns K) (chain : List (NFEntry K)) (hN : 1 ≤ chain.length) :
    calcNF M chain = linToDb M (friisTotal chain) := by
  cases chain with
  | nil => simp at hN
  | cons c0 rest =>
    rw [calcNF, foldl_nfStep, friisTotal]
    simp only [List.length_cons, nfAt]
    rw [Finset.sum_Ico_eq_sum_range]
    simp only [Nat.add_sub_cancel] 
    congr 2
    refine Finset.sum_congr rfl fun i _ => ?_
    rw [Nat.add_comm 1 i, Finset.prod_range_succ']
    simp only [nfAt, gainAt]
    rw [mul_comm]

/-- C1 at a concrete two-stage chain over the reals. -/
theorem calcNF_friis_witness :
    1 ≤ ([⟨fin 100, fin 2, "lna"⟩, ⟨fin 10, fin 3, "amp"⟩] : List (NFEntry ℝ)).length ∧
    calcNF realMath [⟨fin 100, fin 2, "lna"⟩, ⟨fin 10, fin 3, "amp"⟩] =
      linToDb realMath (friisTotal [⟨fin 100, fin 2, "lna"⟩, ⟨fin 10, fin 3, "amp"⟩]) :=
  ⟨by simp, calcNF_friis realMath _ (by simp)⟩

theorem gainAfterLoop_snd (chain : List (P1Entry K)) :
    (gainAfterLoop chain).2 = ∏ j in Finset.range chain.length, p1GainAt chain j := by
  induction chain with
  | nil => rfl
  | cons c r ih =>
    have h : (gainAfterLoop (c :: r)).2 = (gainAfterLoop r).2 * c.gain_lin := rfl
    rw [h, ih, List.length_cons, Finset.prod_range_succ']
    simp only [p1GainAt]

theorem gainAfterLoop_cons (c : P1Entry K) (r : List (P1Entry K)) :
    (gainAfterLoop (c :: r)).1 =
      (∏ j in Finset.range r.length, p1GainAt r j) :: (gainAfterLoop r).1 := by
  have h : (gainAfterLoop (c :: r)).1 = (gainAfterLoop r).2 :: (gainAfterLoop r).1 := rfl
  rw [h, gainAfterLoop_snd]

theorem gainAfter_cons_succ (c : P1Entry K) (r : List (P1Entry K)) (i : ℕ) :
    gainAfter (c :: r) (i + 1) = gainAfter r i := by
  unfold gainAfter
  rw [List.length_cons, ← Finset.prod_Ico_add' _ (i + 1) r.length 1]
  simp only [p1GainAt]

theorem gainAfter_cons_zero (c : P1Entry K) (r : List (P1Entry K)) :
    gainAfter (c :: r) 0 = ∏ j in Finset.range r.length, p1GainAt r j := by
  unfold gainAfter
  rw [List.length_cons, Finset.range_eq_Ico, ← Finset.prod_Ico_add' _ 0 r.length 1]
  simp only [p1GainAt, Nat.zero_add]

theorem invSumStep_eq (acc : JSNum K) (c : P1Entry K) (g : JSNum K) :
    invSumStep acc (c, g) =
      acc + (if limiting c.p1_lin = true then fin 1 / (c.p1_lin * g) else 0) := by
  unfold invSumStep limiting
  cases h : c.p1_lin <;> simp [isFinite, le, gt, lt, strictEq]
  rename_i x
  rcases lt_trichotomy x 0 with hx | hx | hx
  · simp [hx, hx.le, hx.not_lt]
  · simp [hx]
  · simp [hx, hx.le, hx.not_lt, hx.ne.symm]
  

theorem foldl_invSumStep (chain : List (P1Entry K)) (acc : JSNum K) :
    (chain.zip (gainAfterLoop chain).1).foldl invSumStep acc = acc + invSum chain := by
  induction chain generalizing acc with
  | nil => simp [invSum]
  | cons c r ih =>
    rw [gainAfterLoop_cons, List.zip_cons_cons, List.foldl_cons, ih, invSumStep_eq]
    unfold invSum
    rw [Finset.sum_filter, Finset.sum_filter, List.length_cons, Finset.sum_range_succ']
    simp only [p1At, gainAfter_cons_succ, gainAfter_cons_zero]
    rw [add_assoc, add_comm (ite _ _ _)]

/-- C2: for every chain of `N ≥ 1` stages, `calcP1db` returns `+Infinity` when the
reciprocal sum `S` over the limiting stages is exactly zero, and `linToDb (1 / S)`
otherwise; the stages whose `p1_lin` is non-finite or `≤ 0` are not in the sum. -/
theorem calcP1db_spec (M : MathFns K) (chain : List (P1Entry K)) (hN : 1 ≤ chain.length) :
    calcP1db M chain =
      if invSum chain = fin 0 then pinf else linToDb M (fin 1 / invSum chain) := by
  have h0 : chain.length ≠ 0 := by omega
  have hs : ∀ a : JSNum K, (strictEq a (fin 0) = true) ↔ a = fin 0 := by
    intro a
    cases a <;> simp [strictEq]
  unfold calcP1db
  simp only [h0, if_false, foldl_invSumStep, hs]
  have : fin 0 + invSum chain = invSum chain := zero_add _
  rw [this]

/-- C2 at a concrete two-stage chain whose second stage is non-limiting. -/
theorem calcP1db_spec_witness :
    1 ≤ ([⟨fin 100, fin 50, "lna", fin 17⟩, ⟨fin 10, pinf, "amp", fin 1000⟩] :
        List (P1Entry ℝ)).length ∧
    calcP1db realMath [⟨fin 100, fin 50, "lna", fin 17⟩, ⟨fin 10, pinf, "amp", fin 1000⟩] =
      (if invSum ([⟨fin 100, fin 50, "lna", fin 17⟩, ⟨fin 10, pinf, "amp", fin 1000⟩] :
          List (P1Entry ℝ)) = fin 0 then pinf
       else linToDb realMath (fin 1 / invSum
        [⟨fin 100, fin 50, "lna", fin 17⟩, ⟨fin 10, pinf, "amp", fin 1000⟩])) :=
  ⟨by simp, calcP1db_spec realMath _ (by simp)⟩

/-! ## Stage type semantics -/

/-- On a number other than `NaN`, `v || 0` is `v` (a zero is replaced by a zero). -/
theorem jsOr_zero_of_number (x : JSNum K) (hx : x ≠ nan) : jsOr (some x) (fin 0) = x := by
  cases x with
  | fin a =>
    by_cases ha : a = 0
    · simp [jsOr, truthy, ha]
    · simp [jsOr, truthy, ha]
  | pinf => rfl
  | ninf => rfl
  | nan => exact absurd rfl hx

/-- C3: for a stage whose fields are numbers: an amplifier has effective gain `gain_dB` and
effective noise figure `nf_dB` when present, `|gain_dB|` otherwise; a filter, attenuator or
switch has effective gain `-insertion_loss_dB` and effective noise figure
`insertion_loss_dB` whatever `gain_dB` and `nf_dB` hold; so turning an amplifier into a
filter, no other field edited, makes its effective gain `-insertion_loss_dB`. -/
theorem effectiveDb_ampli_passive (s : Stage K) :
    (s.type = StageType.ampli → ∀ g, s.gain_dB = some g → g ≠ nan →
        (effectiveDb s).1 = g ∧ (∀ n, s.nf_dB = some n → (effectiveDb s).2 = n) ∧
          (s.nf_dB = none → (effectiveDb s).2 = JSNum.abs g)) ∧
    (∀ il, s.insertion_loss_dB = some il → il ≠ nan →
        (s.type = StageType.filter ∨ s.type = StageType.atten ∨ s.type = StageType.switch →
          effectiveDb s = (-il, il)) ∧
        (s.type = StageType.ampli →
          (effectiveDb { s with type := StageType.filter }).1 = -il)) := by
  refine ⟨?_, ?_⟩
  · intro ht g hg hgn
    have h1 : (effectiveDb s).1 = g := by
      simp [effectiveDb, ht, hg, jsOr_zero_of_number g hgn]
    refine ⟨h1, ?_, ?_⟩
    · intro n hn
      simp [effectiveDb, ht, hn]
    · intro hn
      simp [effectiveDb, ht, hn, hg, jsOr_zero_of_number g hgn]
  · intro il hil hiln
    refine ⟨?_, ?_⟩
    · intro ht
      simp [effectiveDb, ht, hil, jsOr_zero_of_number il hiln]
    · intro _
      simp [effectiveDb, hil, jsOr_zero_of_number il hiln]

/-- C3 at a concrete amplifier, with and without a noise figure, and at the same record
turned into a filter. -/
theorem effectiveDb_ampli_passive_witness :
    (effectiveDb (⟨"lna", StageType.ampli, some (fin 20), some (fin 1), some (fin 3),
        some (fin 18)⟩ : Stage ℚ)) = (fin 20, fin 1) ∧
    (effectiveDb (⟨"lna", StageType.ampli, some (fin 20), none, some (fin 3),
        some (fin 18)⟩ : Stage ℚ)) = (fin 20, fin 20) ∧
    (effectiveDb (⟨"lna", StageType.filter, some (fin 20), some (fin 1), some (fin 3),
        some (fin 18)⟩ : Stage ℚ)) = (fin (-3), fin 3) := by
  have h1 := effectiveDb_ampli_passive (⟨"lna", StageType.ampli, some (fin 20), some (fin 1),
    some (fin 3), some (fin 18)⟩ : Stage ℚ)
  have h2 := effectiveDb_ampli_passive (⟨"lna", StageType.ampli, some (fin 20), none,
    some (fin 3), some (fin 18)⟩ : Stage ℚ)
  have h3 := effectiveDb_ampli_passive (⟨"lna", StageType.filter, some (fin 20), some (fin 1),
    some (fin 3), some (fin 18)⟩ : Stage ℚ)
  obtain ⟨a1, a2, -⟩ := h1.1 rfl (fin 20) rfl (by simp)
  obtain ⟨b1, -, b2⟩ := h2.1 rfl (fin 20) rfl (by simp)
  have c1 := (h3.2 (fin 3) rfl (by simp)).1 (Or.inl rfl)
  refine ⟨Prod.ext a1 (a2 _ rfl), Prod.ext b1 ?_, ?_⟩
  · rw [b2 rfl]; simp [JSNum.abs]
  · rw [c1]; rfl

/-- C4: the code at a mixer whose noise figure is exactly `0` and whose insertion loss is
`6`: the effective noise figure is `6`, not `0`, because `s.nf_dB || Math.abs(gain_dB)`
takes a zero as absent; the amplifier branch keeps a zero noise figure. -/
theorem effectiveDb_mixer_zero_nf :
    effectiveDb (⟨"mixer", StageType.mixer, some (fin 0), some (fin 0), some (fin 6),
        some (fin 10)⟩ : Stage ℚ) = (fin (-6), fin 6) ∧
    (effectiveDb (⟨"mixer", StageType.mixer, some (fin 0), some (fin 0), some (fin 6),
        some (fin 10)⟩ : Stage ℚ)).2 ≠ fin 0 ∧
    effectiveDb (⟨"lna", StageType.ampli, some (fin (-6)), some (fin 0), some (fin 6),
        some (fin 10)⟩ : Stage ℚ) = (fin (-6), fin 0) := by
  decide

/-! ## Unit conversion -/

theorem dbToLin_fin_le (M : MathFns K) {x : K} (hx : x ≤ 500) :
    dbToLin M (fin x) = fin (M.pow10 (x / 10)) := by
  simp [dbToLin, isFinite, gt, lt, not_lt.2 hx, mathPow10]

theorem dbToLin_fin_gt (M : MathFns K) {x : K} (hx : 500 < x) :
    dbToLin M (fin x) = fin sentinel := by
  simp [dbToLin, isFinite, gt, lt, hx]

theorem dbToLin_not_finite (M : MathFns K) {v : JSNum K} (hv : isFinite v = false) :
    dbToLin M v = fin sentinel := by
  simp [dbToLin, hv]

theorem linToDb_fin_pos (M : MathFns K) {x : K} (hx : 0 < x) :
    linToDb M (fin x) = fin (10 * M.log10 x) := by
  simp [linToDb, le, lt, strictEq, hx.not_lt, hx.ne.symm, mathLog10, hx]

theorem sentinel_pos : (0 : K) < sentinel := by
  unfold sentinel
  positivity

/-- C6: `dbToLin(db)` is `Math.pow(10, db / 10)` for every finite `db ≤ 500`, the sentinel
`1e300` for every `db > 500` and for every non-finite `db`; its result is always finite. -/
theorem dbToLin_spec (M : MathFns K) :
    (∀ x : K, x ≤ 500 → dbToLin M (fin x) = fin (M.pow10 (x / 10))) ∧
    (∀ x : K, 500 < x → dbToLin M (fin x) = fin sentinel) ∧
    (∀ v : JSNum K, isFinite v = false → dbToLin M v = fin sentinel) ∧
    (∀ v : JSNum K, isFinite (dbToLin M v) = true) := by
  refine ⟨fun x hx => dbToLin_fin_le M hx, fun x hx => dbToLin_fin_gt M hx,
    fun v hv => dbToLin_not_finite M hv, ?_⟩
  intro v
  cases v with
  | fin x =>
    rcases le_or_lt x 500 with hx | hx
    · rw [dbToLin_fin_le M hx]; rfl
    · rw [dbToLin_fin_gt M hx]; rfl
  | pinf => rfl
  | ninf => rfl
  | nan => rfl

/-- C6 at `30`, `501`, `Infinity`, `-Infinity` and `NaN`. -/
theorem dbToLin_spec_witness :
    dbToLin realMath (fin 30) = fin ((10 : ℝ) ^ ((30 : ℝ) / 10)) ∧
    dbToLin realMath (fin 501) = fin (10 ^ 300) ∧
    dbToLin realMath pinf = fin (10 ^ 300) ∧
    dbToLin realMath ninf = fin (10 ^ 300) ∧
    dbToLin realMath nan = fin (10 ^ 300) :=
  ⟨(dbToLin_spec realMath).1 30 (by norm_num), (dbToLin_spec realMath).2.1 501 (by norm_num),
    (dbToLin_spec realMath).2.2.1 pinf rfl, (dbToLin_spec realMath).2.2.1 ninf rfl,
    (dbToLin_spec realMath).2.2.1 nan rfl⟩

/-- C7: on the empty chain `computeAll` writes the placeholder to all four outputs; the two
cascade functions themselves return a non-finite value there, shown as the placeholder. -/
theorem computeAll_nil (M : MathFns K) :
    computeAll M [] = { gainEl := none, nfEl := none, opOutEl := none, ipInEl := none } ∧
    shown (calcNF M []) = none ∧ shown (calcP1db M []) = none :=
  ⟨rfl, rfl, rfl⟩

/-- C5: the code at a stage whose compression point is exactly `0` dBm: `p1_lin` is the
sentinel `1e300`, while `dbToLin(0)` is `1`, because `s.op1db_dBm || 1000` takes a zero as
unset. -/
theorem stageP1Lin_zero :
    stageP1Lin realMath ⟨"mixer", StageType.mixer, some (fin 0), some (fin 6), some (fin 6),
        some (fin 0)⟩ = fin (10 ^ 300) ∧
    dbToLin realMath (fin 0) = fin 1 ∧
    stageP1Lin realMath ⟨"mixer", StageType.mixer, some (fin 0), some (fin 6), some (fin 6),
        some (fin 0)⟩ ≠ dbToLin realMath (fin 0) := by
  have h1 : stageP1Lin realMath ⟨"mixer", StageType.mixer, some (fin 0), some (fin 6),
      some (fin 6), some (fin 0)⟩ = fin (10 ^ 300) := by
    have h : ¬ ((1000 : ℝ) ≤ 500) := by norm_num
    simp [stageP1Lin, stageOp1, jsOr, truthy, gt, lt, sentinel, h]
  have h2 : dbToLin realMath (fin 0) = fin 1 := by
    rw [dbToLin_fin_le realMath (by norm_num)]
    simp [realMath]
  refine ⟨h1, h2, ?_⟩
  rw [h1, h2]
  intro h
  injection h with h
  norm_num at h

/-- For a finite compression point other than `0`, `p1_lin` is `dbToLin` of it. -/
theorem stageP1Lin_eq_dbToLin (M : MathFns K) (s : Stage K) (c : K) (hc : c ≠ 0)
    (hs : s.op1db_dBm = some (fin c)) :
    stageP1Lin M s = dbToLin M (fin c) ∧
    (c ≤ 500 → stageP1Lin M s = fin (M.pow10 (c / 10))) ∧
    (500 < c → stageP1Lin M s = fin sentinel) := by
  have h : stageP1Lin M s = dbToLin M (fin c) := by
    simp [stageP1Lin, stageOp1, hs, jsOr, truthy, hc, dbToLin, isFinite]
  refine ⟨h, fun hle => ?_, fun hgt => ?_⟩
  · rw [h, dbToLin_fin_le M hle]
  · rw [h, dbToLin_fin_gt M hgt]

theorem effectiveDb_zero_loss (s0 : Stage K)
    (ht : s0.type = StageType.filter ∨ s0.type = StageType.atten ∨ s0.type = StageType.switch)
    (hil : s0.insertion_loss_dB = some (fin 0)) : effectiveDb s0 = (fin 0, fin 0) := by
  simp [effectiveDb, ht, hil, jsOr, truthy]

theorem dbToLin_zero (M : MathFns K) (hM : M.Lawful) : dbToLin M (fin 0) = fin 1 := by
  rw [dbToLin_fin_le M (by norm_num), zero_div, hM.pow10_zero]

/-- A single amplifier stage: the values computed by `computeAll`. -/
theorem cascadeValues_single_ampli (M : MathFns K) (s : Stage K) (G N : K)
    (ht : s.type = StageType.ampli) (hg : s.gain_dB = some (fin G))
    (hn : s.nf_dB = some (fin N)) :
    (cascadeValues M [s]).gainTotal_dB = linToDb M (dbToLin M (fin G)) ∧
    (cascadeValues M [s]).nfTotal_dB = linToDb M (dbToLin M (fin N)) := by
  have he : effectiveDb s = (fin G, fin N) := by
    simp [effectiveDb, ht, hg, hn, jsOr_zero_of_number]
  refine ⟨?_, ?_⟩
  · simp only [cascadeValues, List.map_cons, List.map_nil, List.foldl_cons, List.foldl_nil,
      toNFEntry, he]
    congr 1
    exact one_mul _
  · simp only [cascadeValues, List.map_cons, List.map_nil, calcNF, List.foldl_nil,
      toNFEntry, he]

theorem linToDb_sentinel (M : MathFns K) (hM : M.Lawful) :
    linToDb M (fin sentinel) = fin 3000 := by
  rw [linToDb_fin_pos M sentinel_pos]
  unfold sentinel
  rw [hM.log10_tenPow]
  congr 1
  norm_num

/-- C9 fails above the threshold of `dbToLin`: a single amplifier of gain `600` dB is
reported with a total gain of `3000` dB. -/
theorem computeAll_single_ampli_saturates :
    (computeAll realMath [⟨"amp", StageType.ampli, some (fin 600), some (fin 3), some (fin 0),
        some (fin 18)⟩]).gainEl = some 3000 ∧
    (computeAll realMath [⟨"amp", StageType.ampli, some (fin 600), some (fin 3), some (fin 0),
        some (fin 18)⟩]).gainEl ≠ some 600 := by
  have h := (cascadeValues_single_ampli realMath
    ⟨"amp", StageType.ampli, some (fin 600), some (fin 3), some (fin 0), some (fin 18)⟩
    600 3 rfl rfl rfl).1
  rw [dbToLin_fin_gt realMath (by norm_num), linToDb_sentinel realMath realMath_lawful] at h
  have h0 : ([(⟨"amp", StageType.ampli, some (fin 600), some (fin 3), some (fin 0),
      some (fin 18)⟩ : Stage ℝ)]).length ≠ 0 := by simp
  have h3 : (computeAll realMath [⟨"amp", StageType.ampli, some (fin 600), some (fin 3),
      some (fin 0), some (fin 18)⟩]).gainEl = some 3000 := by
    simp only [computeAll, h0, if_false, h, shown]
  refine ⟨h3, ?_⟩
  rw [h3]
  norm_num

/-! ## Non-limiting compression points -/

/-- An unset compression point, or one above `500`, gives the sentinel `p1_lin = 1e300`. -/
theorem stageP1Lin_nonlimiting (M : MathFns K) (s : Stage K)
    (h : s.op1db_dBm = none ∨ ∃ c : K, 500 < c ∧ s.op1db_dBm = some (fin c)) :
    stageP1Lin M s = fin sentinel := by
  rcases h with h | ⟨c, hc, h⟩
  · have : (500 : K) < 1000 := by norm_num
    simp [stageP1Lin, stageOp1, h, jsOr, gt, lt, this]
  · have hc0 : c ≠ 0 := by
      intro h0
      rw [h0] at hc
      norm_num at hc
    simp [stageP1Lin, stageOp1, h, jsOr, truthy, hc0, gt, lt, hc]

/-- A single stage whose `p1_lin` is the sentinel: `calcP1db` returns `3000`. -/
theorem calcP1db_single_sentinel (M : MathFns K) (hM : M.Lawful) (e : P1Entry K)
    (he : e.p1_lin = fin sentinel) : calcP1db M [e] = fin 3000 := by
  have hs : (0 : K) < sentinel := sentinel_pos
  have h1 : gainAfterLoop [e] = ([fin 1], fin 1 * e.gain_lin) := rfl
  have h2 : invSumStep (fin 0) (e, fin 1) = fin (1 / sentinel) := by
    unfold invSumStep
    simp only [he, isFinite, le, lt, strictEq, hs.not_lt, hs.ne.symm, Bool.not_true,
      decide_False, Bool.or_self, Bool.false_eq_true, if_false, fin_mul_fin, mul_one,
      fin_div_fin 1 hs.ne.symm, fin_add_fin, zero_add]
  have h3 : (1 : K) / sentinel ≠ 0 := (one_div_pos.2 hs).ne.symm
  unfold calcP1db
  simp only [List.length_singleton, one_ne_zero, if_false, h1, List.zip_cons_cons,
    List.zip_nil_right, List.foldl_cons, List.foldl_nil, h2, strictEq, h3, decide_False,
    Bool.false_eq_true, fin_div_fin 1 h3, one_div_one_div]
  exact linToDb_sentinel M hM

/-- C8 fails on the code: for the single stage with the sentinel compression point `1000`
the output P1dB is the finite value `3000` dBm, shown as a number, not `+Infinity`. -/
theorem p1_nonlimiting_not_infinite :
    (cascadeValues realMath [⟨"amp", StageType.ampli, some (fin 15), some (fin 3), some (fin 1),
        some (fin 1000)⟩]).p1_out = fin 3000 ∧
    (cascadeValues realMath [⟨"amp", StageType.ampli, some (fin 15), some (fin 3), some (fin 1),
        some (fin 1000)⟩]).p1_out ≠ pinf ∧
    (computeAll realMath [⟨"amp", StageType.ampli, some (fin 15), some (fin 3), some (fin 1),
        some (fin 1000)⟩]).opOutEl = some 3000 := by
  have h : (cascadeValues realMath [⟨"amp", StageType.ampli, some (fin 15), some (fin 3),
      some (fin 1), some (fin 1000)⟩]).p1_out = fin 3000 :=
    calcP1db_single_sentinel realMath realMath_lawful _
      (stageP1Lin_nonlimiting realMath _ (Or.inr ⟨1000, by norm_num, rfl⟩))
  have h0 : ([(⟨"amp", StageType.ampli, some (fin 15), some (fin 3), some (fin 1),
      some (fin 1000)⟩ : Stage ℝ)]).length ≠ 0 := by simp
  refine ⟨h, ?_, ?_⟩
  · rw [h]; exact fun h => JSNum.noConfusion h
  · simp only [computeAll, h0, if_false, h, shown]

/-! ## The stage list manager: resize, remove, move -/

/-- A non-negative `start` is clamped to the length of the array. -/
theorem spliceStart_of_nonneg (len : ℕ) (n : ℕ) : spliceStart len (n : ℤ) = min n len := by
  simp [spliceStart]

/-- C13: for every chain and every integer target `v`, the `input` handler of the stage
count leaves a chain of length exactly `min (max v 0) 100`: when growing, the existing
stages followed by default stages (all of type amplifier); when shrinking, exactly the
first `min (max v 0) 100` stages; and a target of `150` on the empty chain gives length
`100`. -/
theorem nStagesInputHandler_spec (stages : List (Stage K)) (v : ℤ) :
    (((nStagesInputHandler stages (some v)).length : ℤ) = min (max v 0) 100) ∧
    (stages.length ≤ (min (max v 0) 100).toNat →
      nStagesInputHandler stages (some v) =
        stages ++ (List.range' stages.length
          ((min (max v 0) 100).toNat - stages.length)).map defaultStage) ∧
    ((min (max v 0) 100).toNat ≤ stages.length →
      nStagesInputHandler stages (some v) = stages.take (min (max v 0) 100).toNat) ∧
    (∀ i : ℕ, (defaultStage i : Stage K).type = StageType.ampli) ∧
    (nStagesInputHandler ([] : List (Stage K)) (some 150)).length = 100 := by
  have hc : max 0 (min 100 v) = min (max v 0) 100 := by omega
  obtain ⟨n, hn⟩ : ∃ n : ℕ, min (max v 0) 100 = (n : ℤ) :=
    ⟨(min (max v 0) 100).toNat, (Int.toNat_of_nonneg (by simp)).symm⟩
  have key : nStagesInputHandler stages (some v) =
      if stages.length < n then
        stages ++ (List.range' stages.length (n - stages.length)).map defaultStage
      else stages.take n := by
    unfold nStagesInputHandler
    simp only [hc, hn, Int.toNat_ofNat, gt_iff_lt, Nat.cast_lt, spliceFrom,
      spliceStart_of_nonneg]
    by_cases h1 : stages.length < n
    · simp [h1]
    · by_cases h2 : n < stages.length
      · simp [h1, h2, h2.le]
      · have : n = stages.length := by omega
        simp [this]
  rw [hn, Int.toNat_ofNat]
  refine ⟨?_, ?_, ?_, fun _ => rfl, ?_⟩
  · rw [key]
    by_cases h1 : stages.length < n
    · simp [h1]; omega
    · simp [h1]; omega
  · intro h
    rw [key]
    by_cases h1 : stages.length < n
    · simp [h1]
    · have : n = stages.length := by omega
      simp [this]
  · intro h
    rw [key]
    have h1 : ¬ stages.length < n := by omega
    simp [h1]
  · simp [nStagesInputHandler]

/-- C13 at a one-stage chain grown to three stages and a three-stage chain cut to one. -/
theorem nStagesInputHandler_spec_witness :
    nStagesInputHandler ([defaultStage 0] : List (Stage ℚ)) (some 3) =
      [defaultStage 0] ++ (List.range' 1 2).map defaultStage ∧
    nStagesInputHandler ([defaultStage 0, defaultStage 1, defaultStage 2] : List (Stage ℚ))
      (some 1) = [defaultStage 0] :=
  ⟨(nStagesInputHandler_spec ([defaultStage 0] : List (Stage ℚ)) 3).2.1 (by decide),
    (nStagesInputHandler_spec ([defaultStage 0, defaultStage 1, defaultStage 2] :
      List (Stage ℚ)) 1).2.2.1 (by decide)⟩

/-- Splicing the element at a valid position `i` out. -/
theorem splice_valid {α : Type} (a : List α) (i : ℕ) (hi : i < a.length) :
    splice a (i : ℤ) 1 [] = ([a.get ⟨i, hi⟩], a.take i ++ a.drop (i + 1)) := by
  have h1 : min i a.length = i := Nat.min_eq_left hi.le
  have h2 : min 1 (a.length - i) = 1 := by omega
  have h3 : (1 : ℤ).toNat = 1 := rfl
  simp only [splice, spliceStart_of_nonneg, h1, h3, h2, List.append_nil]
  rw [List.drop_eq_getElem_cons hi]
  rfl

/-- Splicing one element in at a position `i` within the array. -/
theorem splice_insert {α : Type} (a : List α) (i : ℕ) (hi : i ≤ a.length) (x : α) :
    (splice a (i : ℤ) 0 [x]).2 = a.take i ++ x :: a.drop i := by
  simp [splice, spliceStart_of_nonneg, Nat.min_eq_left hi]

/-- C14: the code at a drop whose payload parses to an index outside `[0, length)`: with
source `7` on a three-stage chain nothing is spliced out, `moved` is `undefined`, and
`undefined` is spliced in at the destination (here `0`, and `3`), so the chain is modified
and has four elements; with source `-1` the last stage is moved to the destination. -/
theorem invalid_index_modifies :
    dropHandler [some 10, some 20, some 30] (some 7) 0 = [none, some 10, some 20, some 30] ∧
    dropHandler [some 10, some 20, some 30] (some 7) 3 = [some 10, some 20, some 30, none] ∧
    dropHandler [some 10, some 20, some 30] (some (-1)) 0 = [some 30, some 10, some 20] ∧
    dropHandler [some 10, some 20, some 30] (some 7) 0 ≠ [some 10, some 20, some 30] := by
  decide

/-- Taking the element at `i` out and putting it back at `i` restores the list. -/
theorem move_take_drop {α : Type} (a : List α) (i : ℕ) (hi : i < a.length) :
    (a.take i ++ a.drop (i + 1)).take i ++ a.get ⟨i, hi⟩ :: (a.take i ++ a.drop (i + 1)).drop i
      = a := by
  have hl : (a.take i).length = i := by simp [hi.le]
  rw [List.take_append_of_le_length (by omega), List.drop_append_of_le_length (by omega)]
  rw [List.take_of_length_le (by omega), List.drop_of_length_le (by omega : (a.take i).length ≤ i)]
  simp only [List.nil_append]
  conv_rhs => rw [← List.take_append_drop i a, List.drop_eq_getElem_cons hi]
  simp

/-- C15: for every chain and every valid index `i`, the drop handler with source `i` and
destination `i` (or `i + 1`, the slot just below the card itself) leaves the chain
unchanged, and so does `onCardDrop` on the card itself, above or below its midpoint. -/
theorem move_to_own_position {α : Type} (stages : List (Option α)) (i : ℕ)
    (hi : i < stages.length) :
    dropHandler stages (some (i : ℤ)) i = stages ∧
    dropHandler stages (some (i : ℤ)) (i + 1) = stages ∧
    (∀ b : Bool, onCardDrop stages (some (i : ℤ)) (some (i : ℤ)) b = stages) := by
  have hlen : i ≤ (stages.take i ++ stages.drop (i + 1)).length := by
    simp; omega
  have core : (splice (splice stages (i : ℤ) 1 []).2 (i : ℤ) 0
      [(splice stages (i : ℤ) 1 []).1.head?.join]).2 = stages := by
    rw [splice_valid stages i hi]
    simp only [List.head?_cons, Option.join]
    rw [splice_insert _ i hlen]
    exact move_take_drop stages i hi
  refine ⟨?_, ?_, ?_⟩
  · unfold dropHandler
    simp only [lt_self_iff_false, if_false]
    have : ¬ ((i : ℤ) < 0) := by omega
    simp only [this, if_false]
    exact core
  · unfold dropHandler
    have h1 : (i : ℤ) < ((i + 1 : ℕ) : ℤ) := by push_cast; omega
    have h2 : (((i + 1 : ℕ) : ℤ)) - 1 = i := by push_cast; omega
    have h3 : ¬ ((i : ℤ) < 0) := by omega
    simp only [h1, if_true, h2, h3, if_false]
    exact core
  · intro b
    cases b
    · unfold onCardDrop
      have h1 : (i : ℤ) < (i : ℤ) + 1 := by omega
      have h2 : (i : ℤ) + 1 - 1 = i := by omega
      simp only [Bool.false_eq_true, if_false, h1, if_true, h2]
      exact core
    · unfold onCardDrop
      simp only [if_true, lt_self_iff_false, if_false]
      exact core

/-- C15 at the middle stage of a three-stage chain. -/
theorem move_to_own_position_witness :
    dropHandler [some 10, some 20, some 30] (some ((1 : ℕ) : ℤ)) 1 = [some 10, some 20, some 30] :=
  (move_to_own_position [some 10, some 20, some 30] 1 (by simp)).1

/-! ## The reciprocal sum, stage by stage -/

/-- The product of all gains of a chain, as a list product. -/
theorem prod_p1GainAt (chain : List (P1Entry K)) :
    ∏ j in Finset.range chain.length, p1GainAt chain j = (chain.map P1Entry.gain_lin).prod := by
  induction chain with
  | nil => rfl
  | cons c r ih =>
    rw [List.length_cons, Finset.prod_range_succ', List.map_cons, List.prod_cons, ← ih, mul_comm]
    simp only [p1GainAt]

/-- The reciprocal sum of a chain, stage by stage. -/
theorem invSum_cons (c : P1Entry K) (r : List (P1Entry K)) :
    invSum (c :: r) =
      (if limiting c.p1_lin = true then fin 1 / (c.p1_lin * (r.map P1Entry.gain_lin).prod)
        else 0) + invSum r := by
  unfold invSum
  rw [Finset.sum_filter, Finset.sum_filter, List.length_cons, Finset.sum_range_succ']
  simp only [p1At, gainAfter_cons_succ, gainAfter_cons_zero, prod_p1GainAt]
  rw [add_comm]

/-- `calcP1db` on a non-empty chain, from the reciprocal sum. -/
theorem calcP1db_of_invSum (M : MathFns K) (chain : List (P1Entry K)) (hne : chain ≠ []) :
    calcP1db M chain =
      if invSum chain = fin 0 then pinf else linToDb M (fin 1 / invSum chain) := by
  have h0 : chain.length ≠ 0 := by simpa using hne
  have hs : ∀ a : JSNum K, (strictEq a (fin 0) = true) ↔ a = fin 0 := by
    intro a
    cases a <;> simp [strictEq]
  unfold calcP1db
  simp only [h0, if_false, foldl_invSumStep, hs]
  have : fin 0 + invSum chain = invSum chain := zero_add _
  rw [this]

/-- A stage limits exactly when its `p1_lin` is finite and positive. -/
theorem limiting_iff_isPos (p : JSNum K) : limiting p = true ↔ IsPos p := by
  cases p with
  | fin x =>
    simp only [limiting, isFinite, gt, lt, Bool.true_and, decide_eq_true_eq]
    exact ⟨fun h => ⟨x, h, rfl⟩, fun ⟨y, hy, h⟩ => by injection h with h; rw [h]; exact hy⟩
  | pinf => simp [limiting, isFinite, IsPos]
  | ninf => simp [limiting, isFinite, IsPos]
  | nan => simp [limiting, isFinite, IsPos]

/-! ## Two sentinel stages -/

/-- The `chainForP1` entry of a zero-loss stage with a non-limiting compression point. -/
theorem toP1Entry_zero_loss (M : MathFns K) (hM : M.Lawful) (s0 : Stage K)
    (ht : s0.type = StageType.filter ∨ s0.type = StageType.atten ∨ s0.type = StageType.switch)
    (hil : s0.insertion_loss_dB = some (fin 0))
    (hp : s0.op1db_dBm = none ∨ ∃ c : K, 500 < c ∧ s0.op1db_dBm = some (fin c)) :
    (toP1Entry M s0).gain_lin = fin 1 ∧ (toP1Entry M s0).p1_lin = fin sentinel := by
  refine ⟨?_, stageP1Lin_nonlimiting M s0 hp⟩
  show dbToLin M (effectiveDb s0).1 = fin 1
  rw [effectiveDb_zero_loss s0 ht hil, dbToLin_zero M hM]

/-- Two stages whose `p1_lin` is the sentinel, the second of unit gain. -/
theorem calcP1db_two_sentinel (M : MathFns K) (e1 e2 : P1Entry K)
    (h1 : e1.p1_lin = fin sentinel) (h2 : e2.p1_lin = fin sentinel)
    (hg : e2.gain_lin = fin 1) :
    calcP1db M [e1, e2] = fin (10 * M.log10 (sentinel / 2)) := by
  have hs : (0 : K) < sentinel := sentinel_pos
  have hl : limiting (fin sentinel : JSNum K) = true :=
    (limiting_iff_isPos _).2 ⟨sentinel, hs, rfl⟩
  have hsum : invSum [e1, e2] = fin (2 / sentinel) := by
    rw [invSum_cons, invSum_cons, h1, h2, if_pos hl]
    simp only [List.map_cons, List.map_nil, List.prod_cons, List.prod_nil, hg]
    have e1' : (fin 1 : JSNum K) * 1 = fin 1 := mul_one _
    have e0 : invSum ([] : List (P1Entry K)) = 0 := by simp [invSum]
    have e3 : (1 : JSNum K) = fin 1 := rfl
    rw [e1', e0, add_zero, e3, fin_mul_fin, mul_one, fin_div_fin 1 hs.ne.symm, if_pos hl,
      fin_add_fin]
    congr 1
    ring
  have h2s : (0 : K) < 2 / sentinel := div_pos (by norm_num) hs
  have hne : fin (2 / sentinel) ≠ (fin 0 : JSNum K) := by
    intro h
    injection h with h
    exact h2s.ne.symm h
  rw [calcP1db_of_invSum M _ (by simp), hsum, if_neg hne, fin_div_fin 1 h2s.ne.symm,
    one_div_div, linToDb_fin_pos M (by positivity)]

/-- C11 fails on the code: appending a zero-loss attenuator with the sentinel compression
point to the single stage with the sentinel compression point changes the output P1dB from
`3000` dBm to `3000 − 10·log10(2)` dBm. -/
theorem p1_insert_changes :
    (cascadeValues realMath [⟨"amp", StageType.ampli, some (fin 15), some (fin 3), some (fin 1),
        some (fin 1000)⟩]).p1_out = fin 3000 ∧
    (cascadeValues realMath [⟨"amp", StageType.ampli, some (fin 15), some (fin 3), some (fin 1),
        some (fin 1000)⟩, ⟨"pad", StageType.atten, some (fin 0), some (fin 0), some (fin 0),
        some (fin 1000)⟩]).p1_out = fin (3000 - 10 * Real.logb 10 2) ∧
    (fin (3000 - 10 * Real.logb 10 2) : JSNum ℝ) ≠ fin 3000 := by
  have hp : ∀ s : Stage ℝ, s.op1db_dBm = some (fin 1000) → stageP1Lin realMath s = fin sentinel :=
    fun s hs => stageP1Lin_nonlimiting realMath s (Or.inr ⟨1000, by norm_num, hs⟩)
  refine ⟨?_, ?_, ?_⟩
  · exact calcP1db_single_sentinel realMath realMath_lawful _ (hp _ rfl)
  · have h := calcP1db_two_sentinel realMath
      (toP1Entry realMath ⟨"amp", StageType.ampli, some (fin 15), some (fin 3), some (fin 1),
        some (fin 1000)⟩)
      (toP1Entry realMath ⟨"pad", StageType.atten, some (fin 0), some (fin 0), some (fin 0),
        some (fin 1000)⟩) (hp _ rfl) (hp _ rfl)
      (toP1Entry_zero_loss realMath realMath_lawful _ (Or.inr (Or.inl rfl)) rfl
        (Or.inr ⟨1000, by norm_num, rfl⟩)).1
    have hv : realMath.log10 (sentinel / 2) = 300 - Real.logb 10 2 := by
      show Real.logb 10 (sentinel / 2) = _
      rw [Real.logb_div sentinel_pos.ne.symm (by norm_num)]
      have := realMath_lawful.log10_tenPow 300
      have h300 : Real.logb 10 (sentinel : ℝ) = 300 := by
        simpa [sentinel, realMath] using this
      rw [h300]
    have hc : ∀ l : List (Stage ℝ),
        (cascadeValues realMath l).p1_out = calcP1db realMath (l.map (toP1Entry realMath)) :=
      fun _ => rfl
    rw [hc, List.map_cons, List.map_cons, List.map_nil, h, hv]
    congr 1
    ring
  · intro h
    injection h with h
    have h2 : Real.logb 10 2 = 0 := by linarith
    have h3 : (0 : ℝ) < Real.logb 10 2 := Real.logb_pos (by norm_num) (by norm_num)
    linarith

/-! ## The two-amplifier example -/

/-- The total noise figure of two amplifiers below the threshold of `dbToLin`. -/
theorem cascadeValues_two_ampli (M : MathFns K) (s1 s2 : Stage K) (G1 N1 G2 N2 : K)
    (ht1 : s1.type = StageType.ampli) (hg1 : s1.gain_dB = some (fin G1))
    (hn1 : s1.nf_dB = some (fin N1)) (ht2 : s2.type = StageType.ampli)
    (hg2 : s2.gain_dB = some (fin G2)) (hn2 : s2.nf_dB = some (fin N2))
    (hG1 : G1 ≤ 500) (hN1 : N1 ≤ 500) (hN2 : N2 ≤ 500) (hne : M.pow10 (G1 / 10) ≠ 0) :
    (cascadeValues M [s1, s2]).nfTotal_dB =
      linToDb M (fin (M.pow10 (N1 / 10) + (M.pow10 (N2 / 10) - 1) / M.pow10 (G1 / 10))) := by
  have he1 : effectiveDb s1 = (fin G1, fin N1) := by
    simp [effectiveDb, ht1, hg1, hn1, jsOr_zero_of_number]
  have he2 : effectiveDb s2 = (fin G2, fin N2) := by
    simp [effectiveDb, ht2, hg2, hn2, jsOr_zero_of_number]
  simp only [cascadeValues, List.map_cons, List.map_nil, calcNF, List.foldl_cons,
    List.foldl_nil, toNFEntry, he1, he2, nfStep, dbToLin_fin_le M hG1, dbToLin_fin_le M hN1,
    dbToLin_fin_le M hN2, fin_sub_fin, fin_div_fin _ hne, fin_add_fin]

/-- The `n`-th power of `10 ^ (m / n)` is `10 ^ m`. -/
theorem ten_rpow_div_pow (m n : ℕ) (hn : 0 < n) :
    ((10 : ℝ) ^ ((m : ℝ) / (n : ℝ))) ^ n = 10 ^ m := by
  have hn0 : (n : ℝ) ≠ 0 := by positivity
  rw [← Real.rpow_natCast, ← Real.rpow_mul (by norm_num), div_mul_cancel₀ _ hn0,
    Real.rpow_natCast]

/-- An upper bound `10 ^ (m / n)` from a comparison of `n`-th powers. -/
theorem lt_ten_rpow (a : ℝ) (m n : ℕ) (hn : 0 < n) (h : a ^ n < 10 ^ m) :
    a < (10 : ℝ) ^ ((m : ℝ) / (n : ℝ)) := by
  apply lt_of_pow_lt_pow_left₀ n (by positivity)
  rw [ten_rpow_div_pow m n hn]
  exact h

/-- A lower bound `10 ^ (m / n)` from a comparison of `n`-th powers. -/
theorem ten_rpow_lt (a : ℝ) (m n : ℕ) (hn : 0 < n) (ha : 0 ≤ a) (h : 10 ^ m < a ^ n) :
    (10 : ℝ) ^ ((m : ℝ) / (n : ℝ)) < a := by
  apply lt_of_pow_lt_pow_left₀ n ha
  rw [ten_rpow_div_pow m n hn]
  exact h

/-- Rational bounds on the Friis total of the example. -/
theorem friis_example_bounds :
    (1268877 : ℝ) / 1000000 <
        (10 : ℝ) ^ ((1 : ℝ) / 10) + ((10 : ℝ) ^ ((3 : ℝ) / 10) - 1) / 10 ^ 2 ∧
    (10 : ℝ) ^ ((1 : ℝ) / 10) + ((10 : ℝ) ^ ((3 : ℝ) / 10) - 1) / 10 ^ 2 <
        (1268879 : ℝ) / 1000000 := by
  have a1 := ten_rpow_lt (1258926 / 1000000) 1 10 (by norm_num) (by norm_num) (by norm_num)
  have a2 := lt_ten_rpow (1258925 / 1000000) 1 10 (by norm_num) (by norm_num)
  have b1 := ten_rpow_lt (1995263 / 1000000) 3 10 (by norm_num) (by norm_num) (by norm_num)
  have b2 := lt_ten_rpow (1995262 / 1000000) 3 10 (by norm_num) (by norm_num)
  norm_num at a1 a2 b1 b2
  constructor
  · linarith
  · linarith

/-- The value shown for the example chain: the exact formula. -/
theorem computeAll_example_nf :
    (computeAll realMath [⟨"lna", StageType.ampli, some (fin 20), some (fin 1), some (fin 0),
        some (fin 18)⟩, ⟨"amp", StageType.ampli, some (fin 10), some (fin 3), some (fin 0),
        some (fin 23)⟩]).nfEl =
      some (10 * Real.logb 10
        ((10 : ℝ) ^ ((1 : ℝ) / 10) + ((10 : ℝ) ^ ((3 : ℝ) / 10) - 1) / 10 ^ 2)) := by
  have h := cascadeValues_two_ampli realMath
    ⟨"lna", StageType.ampli, some (fin 20), some (fin 1), some (fin 0), some (fin 18)⟩
    ⟨"amp", StageType.ampli, some (fin 10), some (fin 3), some (fin 0), some (fin 23)⟩
    20 1 10 3 rfl rfl rfl rfl rfl rfl (by norm_num) (by norm_num) (by norm_num)
    (realMath_lawful.pow10_pos _).ne.symm
  have hG : realMath.pow10 (20 / 10) = 10 ^ 2 := by
    show (10 : ℝ) ^ ((20 : ℝ) / 10) = 10 ^ 2
    rw [show ((20 : ℝ) / 10) = ((2 : ℕ) : ℝ) by norm_num, Real.rpow_natCast]
  have hF1 : realMath.pow10 (1 / 10) = (10 : ℝ) ^ ((1 : ℝ) / 10) := rfl
  have hF2 : realMath.pow10 (3 / 10) = (10 : ℝ) ^ ((3 : ℝ) / 10) := rfl
  rw [hG, hF1, hF2] at h
  have hpos : (0 : ℝ) <
      (10 : ℝ) ^ ((1 : ℝ) / 10) + ((10 : ℝ) ^ ((3 : ℝ) / 10) - 1) / 10 ^ 2 := by
    have := friis_example_bounds.1
    linarith
  rw [linToDb_fin_pos realMath hpos] at h
  have h0 : ([(⟨"lna", StageType.ampli, some (fin 20), some (fin 1), some (fin 0),
      some (fin 18)⟩ : Stage ℝ), ⟨"amp", StageType.ampli, some (fin 10), some (fin 3),
      some (fin 0), some (fin 23)⟩]).length ≠ 0 := by simp
  simp only [computeAll, h0, if_false, h, shown]
  rfl

/-- C12 (amended): for the chain [amplifier(gain 20, nf 1), amplifier(gain 10, nf 3)] the
total noise figure shown by `computeAll` is `10·log10(10^0.1 + (10^0.3 − 1) / 10^2)`, and
that value lies between `1.0335` and `1.0345`: it is `1.034` dB to three decimals. -/
theorem friis_example_value :
    (computeAll realMath [⟨"lna", StageType.ampli, some (fin 20), some (fin 1), some (fin 0),
        some (fin 18)⟩, ⟨"amp", StageType.ampli, some (fin 10), some (fin 3), some (fin 0),
        some (fin 23)⟩]).nfEl =
      some (10 * Real.logb 10
        ((10 : ℝ) ^ ((1 : ℝ) / 10) + ((10 : ℝ) ^ ((3 : ℝ) / 10) - 1) / 10 ^ 2)) ∧
    (10335 : ℝ) / 10000 < 10 * Real.logb 10
        ((10 : ℝ) ^ ((1 : ℝ) / 10) + ((10 : ℝ) ^ ((3 : ℝ) / 10) - 1) / 10 ^ 2) ∧
    10 * Real.logb 10
        ((10 : ℝ) ^ ((1 : ℝ) / 10) + ((10 : ℝ) ^ ((3 : ℝ) / 10) - 1) / 10 ^ 2)
      < (10345 : ℝ) / 10000 := by
  obtain ⟨hlo, hhi⟩ := friis_example_bounds
  have hpos : (0 : ℝ) <
      (10 : ℝ) ^ ((1 : ℝ) / 10) + ((10 : ℝ) ^ ((3 : ℝ) / 10) - 1) / 10 ^ 2 := by linarith
  refine ⟨computeAll_example_nf, ?_, ?_⟩
  · have h1 : (10 : ℝ) ^ (((2067 : ℕ) : ℝ) / ((20000 : ℕ) : ℝ)) < 1268877 / 1000000 :=
      ten_rpow_lt _ 2067 20000 (by norm_num) (by norm_num) (by norm_num)
    have h2 := (Real.lt_logb_iff_rpow_lt (by norm_num : (1 : ℝ) < 10) hpos).2 (h1.trans hlo)
    norm_num at h2 ⊢
    linarith
  · have h1 : (1268879 : ℝ) / 1000000 < (10 : ℝ) ^ (((2069 : ℕ) : ℝ) / ((20000 : ℕ) : ℝ)) :=
      lt_ten_rpow _ 2069 20000 (by norm_num) (by norm_num)
    have h2 := (Real.logb_lt_iff_lt_rpow (by norm_num : (1 : ℝ) < 10) hpos).2 (hhi.trans h1)
    norm_num at h2 ⊢
    linarith

/-- C12 fails in its decimal value: the total noise figure of the example chain is below
`1.0415` dB, so it is not `1.042` dB to three decimals. -/
theorem friis_example_not_1042 :
    (computeAll realMath [⟨"lna", StageType.ampli, some (fin 20), some (fin 1), some (fin 0),
        some (fin 18)⟩, ⟨"amp", StageType.ampli, some (fin 10), some (fin 3), some (fin 0),
        some (fin 23)⟩]).nfEl =
      some (10 * Real.logb 10
        ((10 : ℝ) ^ ((1 : ℝ) / 10) + ((10 : ℝ) ^ ((3 : ℝ) / 10) - 1) / 10 ^ 2)) ∧
    10 * Real.logb 10
        ((10 : ℝ) ^ ((1 : ℝ) / 10) + ((10 : ℝ) ^ ((3 : ℝ) / 10) - 1) / 10 ^ 2)
      < (10415 : ℝ) / 10000 := by
  obtain ⟨hlo, hhi⟩ := friis_example_bounds
  have hpos : (0 : ℝ) <
      (10 : ℝ) ^ ((1 : ℝ) / 10) + ((10 : ℝ) ^ ((3 : ℝ) / 10) - 1) / 10 ^ 2 := by linarith
  refine ⟨computeAll_example_nf, ?_⟩
  have h1 : (1268879 : ℝ) / 1000000 < (10 : ℝ) ^ (((13 : ℕ) : ℝ) / ((125 : ℕ) : ℝ)) :=
    lt_ten_rpow _ 13 125 (by norm_num) (by norm_num)
  have h2 := (Real.logb_lt_iff_lt_rpow (by norm_num : (1 : ℝ) < 10) hpos).2 (hhi.trans h1)
  norm_num at h2 ⊢
  linarith

/-! ## Non-limiting compression points: the output is not `+Infinity` -/

theorem IsNonneg.mul {a b : JSNum K} (ha : IsNonneg a) (hb : IsNonneg b) :
    IsNonneg (a * b) := by
  obtain ⟨x, hx, rfl⟩ := ha
  obtain ⟨y, hy, rfl⟩ := hb
  exact ⟨x * y, mul_nonneg hx hy, rfl⟩

/-- `dbToLin` is finite and not negative as soon as `Math.pow(10, ·)` is not negative. -/
theorem dbToLin_isNonneg (M : MathFns K) (hM : ∀ y, 0 ≤ M.pow10 y) (v : JSNum K) :
    IsNonneg (dbToLin M v) := by
  cases v with
  | fin x =>
    rcases le_or_lt x 500 with hx | hx
    · rw [dbToLin_fin_le M hx]; exact ⟨_, hM _, rfl⟩
    · rw [dbToLin_fin_gt M hx]; exact ⟨_, sentinel_pos.le, rfl⟩
  | pinf => exact ⟨_, sentinel_pos.le, rfl⟩
  | ninf => exact ⟨_, sentinel_pos.le, rfl⟩
  | nan => exact ⟨_, sentinel_pos.le, rfl⟩

/-- On gains that are not negative the first loop of `calcP1db` yields such values. -/
theorem gainAfterLoop_isNonneg (chain : List (P1Entry K))
    (hg : ∀ c ∈ chain, IsNonneg c.gain_lin) :
    IsNonneg (gainAfterLoop chain).2 ∧ ∀ g ∈ (gainAfterLoop chain).1, IsNonneg g := by
  induction chain with
  | nil => exact ⟨⟨1, zero_le_one, rfl⟩, fun g hg => absurd hg (List.not_mem_nil g)⟩
  | cons c r ih =>
    obtain ⟨h2, h1⟩ := ih (fun d hd => hg d (List.mem_cons_of_mem _ hd))
    have e1 : (gainAfterLoop (c :: r)).1 = (gainAfterLoop r).2 :: (gainAfterLoop r).1 := rfl
    have e2 : (gainAfterLoop (c :: r)).2 = (gainAfterLoop r).2 * c.gain_lin := rfl
    refine ⟨?_, ?_⟩
    · rw [e2]; exact h2.mul (hg c (List.mem_cons_self _ _))
    · intro g hgm
      rw [e1] at hgm
      rcases List.mem_cons.1 hgm with rfl | h
      · exact h2
      · exact h1 g h

/-- The term of a stage with the sentinel `p1_lin` and a `gain_after` that is not negative
is a positive number or `+Infinity`. -/
theorem sentinel_term (g : JSNum K) (hg : IsNonneg g) :
    PosOrInf (fin 1 / (fin sentinel * g)) := by
  obtain ⟨x, hx, rfl⟩ := hg
  have hs : (0 : K) < sentinel := sentinel_pos
  rw [fin_mul_fin]
  rcases hx.lt_or_eq with h | h
  · have hp : 0 < sentinel * x := mul_pos hs h
    left
    exact ⟨1 / (sentinel * x), one_div_pos.2 hp, fin_div_fin 1 hp.ne.symm⟩
  · right
    rw [← h, mul_zero]
    show JSNum.div (fin 1) (fin 0) = pinf
    simp [JSNum.div, signedInf]

/-- Adding a positive number or `+Infinity` to zero, a positive number or `+Infinity`. -/
theorem PosOrInf.add {a b : JSNum K} (ha : PosOrInf a ∨ a = fin 0) (hb : PosOrInf b) :
    PosOrInf (a + b) := by
  rcases hb with ⟨y, hy, rfl⟩ | rfl
  · rcases ha with (⟨x, hx, rfl⟩ | rfl) | rfl
    · exact Or.inl ⟨x + y, add_pos hx hy, rfl⟩
    · exact Or.inr rfl
    · exact Or.inl ⟨0 + y, by linarith, rfl⟩
  · rcases ha with (⟨x, hx, rfl⟩ | rfl) | rfl
    · exact Or.inr rfl
    · exact Or.inr rfl
    · exact Or.inr rfl

/-- A stage whose `p1_lin` is the sentinel is not skipped: its term is added. -/
theorem invSumStep_sentinel (acc : JSNum K) (cg : P1Entry K × JSNum K)
    (hp : cg.1.p1_lin = fin sentinel) :
    invSumStep acc cg = acc + fin 1 / (fin sentinel * cg.2) := by
  have hs : (0 : K) < sentinel := sentinel_pos
  unfold invSumStep
  simp only [hp, isFinite, le, lt, strictEq, hs.not_lt, hs.ne.symm, Bool.not_true,
    decide_False, Bool.or_self, Bool.false_eq_true, if_false]

/-- The second loop of `calcP1db` on sentinel stages: `inv_sum` ends positive or
`+Infinity`, never zero, once a stage is processed. -/
theorem foldl_invSumStep_sentinel (z : List (P1Entry K × JSNum K)) (acc : JSNum K)
    (hacc : PosOrInf acc ∨ acc = fin 0)
    (hz : ∀ cg ∈ z, cg.1.p1_lin = fin sentinel ∧ IsNonneg cg.2) :
    (z ≠ [] → PosOrInf (z.foldl invSumStep acc)) ∧
    (PosOrInf (z.foldl invSumStep acc) ∨ z.foldl invSumStep acc = fin 0) := by
  induction z generalizing acc with
  | nil => exact ⟨fun h => absurd rfl h, hacc⟩
  | cons cg r ih =>
    have hstep : PosOrInf (invSumStep acc cg) := by
      rw [invSumStep_sentinel acc cg (hz cg (List.mem_cons_self _ _)).1]
      exact PosOrInf.add hacc (sentinel_term _ (hz cg (List.mem_cons_self _ _)).2)
    have := ih (invSumStep acc cg) (Or.inl hstep) (fun e he => hz e (List.mem_cons_of_mem _ he))
    rw [List.foldl_cons]
    refine ⟨fun _ => ?_, this.2⟩
    by_cases hr : r = []
    · subst hr
      exact hstep
    · exact this.1 hr

/-- The array `gain_after` has the length of the chain. -/
theorem gainAfterLoop_length (chain : List (P1Entry K)) :
    (gainAfterLoop chain).1.length = chain.length := by
  induction chain with
  | nil => rfl
  | cons c r ih =>
    have e1 : (gainAfterLoop (c :: r)).1 = (gainAfterLoop r).2 :: (gainAfterLoop r).1 := rfl
    rw [e1, List.length_cons, ih, List.length_cons]

/-- C8 (amended): for every non-empty chain in which every stage's compression point is
non-limiting (unset, or above `500` such as the default `1000`), `computeAll` passes the
finite sentinel `p1_lin = 1e300` for every stage, which `calcP1db` does not skip, and the
output P1dB is not `+Infinity`; the input-referred P1dB is the output P1dB minus the total
gain.  Only `Math.pow(10, ·) ≥ 0` is assumed, so gains that underflow to `0` are covered. -/
theorem p1_nonlimiting_not_pinf (M : MathFns K) (hM : ∀ y, 0 ≤ M.pow10 y)
    (l : List (Stage K)) (hl : l ≠ [])
    (hnl : ∀ s ∈ l, s.op1db_dBm = none ∨ ∃ c : K, 500 < c ∧ s.op1db_dBm = some (fin c)) :
    (∀ e ∈ l.map (toP1Entry M), e.p1_lin = fin sentinel ∧ limiting e.p1_lin = true) ∧
    (cascadeValues M l).p1_out ≠ pinf ∧
    (cascadeValues M l).ip1_in = (cascadeValues M l).p1_out - (cascadeValues M l).gainTotal_dB := by
  have hs : (0 : K) < sentinel := sentinel_pos
  have hp : ∀ e ∈ l.map (toP1Entry M), e.p1_lin = fin sentinel := by
    intro e he
    obtain ⟨s, hs, rfl⟩ := List.mem_map.1 he
    exact stageP1Lin_nonlimiting M s (hnl s hs)
  have hg : ∀ e ∈ l.map (toP1Entry M), IsNonneg e.gain_lin := by
    intro e he
    obtain ⟨s, -, rfl⟩ := List.mem_map.1 he
    exact dbToLin_isNonneg M hM _
  refine ⟨fun e he => ⟨hp e he, ?_⟩, ?_, rfl⟩
  · rw [hp e he]
    exact (limiting_iff_isPos _).2 ⟨sentinel, hs, rfl⟩
  · have hlen : (l.map (toP1Entry M)).length ≠ 0 := by simpa using hl
    have hz : ∀ cg ∈ (l.map (toP1Entry M)).zip (gainAfterLoop (l.map (toP1Entry M))).1,
        cg.1.p1_lin = fin sentinel ∧ IsNonneg cg.2 := by
      intro cg hcg
      obtain ⟨c, g⟩ := cg
      exact ⟨hp c (List.of_mem_zip hcg).1,
        (gainAfterLoop_isNonneg _ hg).2 g (List.of_mem_zip hcg).2⟩
    have hzne : (l.map (toP1Entry M)).zip (gainAfterLoop (l.map (toP1Entry M))).1 ≠ [] := by
      intro h
      have := congrArg List.length h
      rw [List.length_zip, gainAfterLoop_length] at this
      simp at this
      exact hl this
    have hsum := (foldl_invSumStep_sentinel _ (fin 0) (Or.inr rfl) hz).1 hzne
    show calcP1db M (l.map (toP1Entry M)) ≠ pinf
    unfold calcP1db
    simp only [hlen, if_false]
    rcases hsum with ⟨x, hx, hxe⟩ | hinf
    · rw [hxe]
      simp only [strictEq, hx.ne.symm, decide_False, Bool.false_eq_true, if_false,
        fin_div_fin 1 hx.ne.symm, linToDb_fin_pos M (one_div_pos.2 hx)]
      exact fun h => JSNum.noConfusion h
    · rw [hinf]
      have h1 : (fin 1 / pinf : JSNum K) = fin 0 := rfl
      have h2 : linToDb M (fin 0) = ninf := by simp [linToDb, le, lt, strictEq]
      simp only [strictEq, Bool.false_eq_true, if_false, h1, h2]
      exact fun h => JSNum.noConfusion h

/-- With underflow, `Math.pow(10, ·)` is still not negative. -/
theorem flushMath_nonneg (y : ℝ) : 0 ≤ flushMath.pow10 y := by
  show (0 : ℝ) ≤ if y ≤ -324 then 0 else (10 : ℝ) ^ y
  split
  · exact le_refl 0
  · exact (Real.rpow_pos_of_pos (by norm_num) y).le

/-- With underflow, `Math.pow(10, 0)` is `1`. -/
theorem flushMath_pow10_zero : flushMath.pow10 0 = 1 := by
  show (if (0 : ℝ) ≤ -324 then 0 else (10 : ℝ) ^ (0 : ℝ)) = 1
  rw [if_neg (by norm_num), Real.rpow_zero]

/-- C8 (amended) at a two-stage chain whose second stage has a gain that underflows to `0`. -/
theorem p1_nonlimiting_not_pinf_witness :
    (cascadeValues flushMath [⟨"amp", StageType.ampli, some (fin 15), some (fin 3),
        some (fin 1), some (fin 1000)⟩, ⟨"pad", StageType.atten, some (fin 0), some (fin 0),
        some (fin 4000), none⟩]).p1_out ≠ pinf :=
  (p1_nonlimiting_not_pinf flushMath flushMath_nonneg _ (by simp)
    (by
      intro s hs
      simp only [List.mem_cons, List.mem_singleton, List.not_mem_nil, or_false] at hs
      rcases hs with rfl | rfl
      · exact Or.inr ⟨1000, by norm_num, rfl⟩
      · exact Or.inl rfl)).2.1

/-! ## A single amplifier -/

/-- `linToDb` of a finite value `≤ 0` is `-Infinity`. -/
theorem linToDb_fin_nonpos (M : MathFns K) {x : K} (hx : x ≤ 0) :
    linToDb M (fin x) = ninf := by
  rcases hx.lt_or_eq with h | h
  · simp [linToDb, le, lt, h]
  · simp [linToDb, le, lt, strictEq, h]

/-- C9 (amended): for a single amplifier with gain `G` dB and noise figure `N` dB,
`computeAll` shows as total gain `10·Math.log10(Math.pow(10, G/10))` when `G ≤ 500` (the
placeholder when `Math.pow(10, G/10)` is not positive, as when it underflows to `0`) and
`10·Math.log10(1e300)` when `G > 500`; likewise the total noise figure with `N`.  Where
`Math.log10` returns `G/10` on `Math.pow(10, G/10)` the total gain is `10·(G/10)`, that is
`G`; where `Math.log10(1e300)` is `300` the value above `500` is `3000`. -/
theorem computeAll_single_ampli_values (M : MathFns K) (s : Stage K) (G N : K)
    (ht : s.type = StageType.ampli) (hg : s.gain_dB = some (fin G))
    (hn : s.nf_dB = some (fin N)) :
    (G ≤ 500 → (computeAll M [s]).gainEl =
      if 0 < M.pow10 (G / 10) then some (10 * M.log10 (M.pow10 (G / 10))) else none) ∧
    (500 < G → (computeAll M [s]).gainEl = some (10 * M.log10 sentinel)) ∧
    (N ≤ 500 → (computeAll M [s]).nfEl =
      if 0 < M.pow10 (N / 10) then some (10 * M.log10 (M.pow10 (N / 10))) else none) ∧
    (500 < N → (computeAll M [s]).nfEl = some (10 * M.log10 sentinel)) ∧
    (G ≤ 500 → 0 < M.pow10 (G / 10) → M.log10 (M.pow10 (G / 10)) = G / 10 →
      (computeAll M [s]).gainEl = some (10 * (G / 10))) ∧
    (N ≤ 500 → 0 < M.pow10 (N / 10) → M.log10 (M.pow10 (N / 10)) = N / 10 →
      (computeAll M [s]).nfEl = some (10 * (N / 10))) ∧
    (M.log10 sentinel = 300 →
      (500 < G → (computeAll M [s]).gainEl = some 3000) ∧
      (500 < N → (computeAll M [s]).nfEl = some 3000)) := by
  obtain ⟨h1, h2⟩ := cascadeValues_single_ampli M s G N ht hg hn
  have h0 : ([s] : List (Stage K)).length ≠ 0 := by simp
  have hgain : (computeAll M [s]).gainEl = shown (linToDb M (dbToLin M (fin G))) := by
    simp only [computeAll, h0, if_false, h1]
  have hnf : (computeAll M [s]).nfEl = shown (linToDb M (dbToLin M (fin N))) := by
    simp only [computeAll, h0, if_false, h2]
  have hle : ∀ x : K, x ≤ 500 → shown (linToDb M (dbToLin M (fin x))) =
      if 0 < M.pow10 (x / 10) then some (10 * M.log10 (M.pow10 (x / 10))) else none := by
    intro x hx
    rw [dbToLin_fin_le M hx]
    by_cases hp : 0 < M.pow10 (x / 10)
    · rw [if_pos hp, linToDb_fin_pos M hp]; rfl
    · rw [if_neg hp, linToDb_fin_nonpos M (not_lt.1 hp)]; rfl
  have hgt : ∀ x : K, 500 < x → shown (linToDb M (dbToLin M (fin x))) =
      some (10 * M.log10 sentinel) := by
    intro x hx
    rw [dbToLin_fin_gt M hx, linToDb_fin_pos M sentinel_pos]; rfl
  refine ⟨fun h => hgain.trans (hle G h), fun h => hgain.trans (hgt G h),
    fun h => hnf.trans (hle N h), fun h => hnf.trans (hgt N h), ?_, ?_, ?_⟩
  · intro h hp hr
    rw [hgain, hle G h, if_pos hp, hr]
  · intro h hp hr
    rw [hnf, hle N h, if_pos hp, hr]
  · intro h300
    refine ⟨fun h => ?_, fun h => ?_⟩
    · rw [hgain, hgt G h, h300]; norm_num
    · rw [hnf, hgt N h, h300]; norm_num

/-- The real `log₁₀` of `1e300` is `300`. -/
theorem realMath_log10_sentinel : realMath.log10 sentinel = 300 := by
  have := realMath_lawful.log10_tenPow 300
  simpa [sentinel] using this

/-- C9 (amended) at the amplifier of gain `20` dB and noise figure `1` dB, at gain `600` dB,
and at gain `-4000` dB, where `Math.pow` underflows. -/
theorem computeAll_single_ampli_values_witness :
    (computeAll realMath [⟨"lna", StageType.ampli, some (fin 20), some (fin 1), some (fin 0),
        some (fin 18)⟩]).gainEl = some (10 * ((20 : ℝ) / 10)) ∧
    (computeAll realMath [⟨"lna", StageType.ampli, some (fin 20), some (fin 1), some (fin 0),
        some (fin 18)⟩]).nfEl = some (10 * ((1 : ℝ) / 10)) ∧
    (computeAll realMath [⟨"amp", StageType.ampli, some (fin 600), some (fin 700), some (fin 0),
        some (fin 18)⟩]).gainEl = some 3000 ∧
    (computeAll flushMath [⟨"pad", StageType.ampli, some (fin (-4000)), some (fin 1),
        some (fin 0), some (fin 18)⟩]).gainEl = none := by
  have h1 := computeAll_single_ampli_values realMath
    ⟨"lna", StageType.ampli, some (fin 20), some (fin 1), some (fin 0), some (fin 18)⟩ 20 1
    rfl rfl rfl
  have h2 := computeAll_single_ampli_values realMath
    ⟨"amp", StageType.ampli, some (fin 600), some (fin 700), some (fin 0), some (fin 18)⟩
    600 700 rfl rfl rfl
  have h3 := computeAll_single_ampli_values flushMath
    ⟨"pad", StageType.ampli, some (fin (-4000)), some (fin 1), some (fin 0), some (fin 18)⟩
    (-4000) 1 rfl rfl rfl
  refine ⟨h1.2.2.2.2.1 (by norm_num) (realMath_lawful.pow10_pos _)
      (realMath_lawful.log10_pow10 _),
    h1.2.2.2.2.2.1 (by norm_num) (realMath_lawful.pow10_pos _)
      (realMath_lawful.log10_pow10 _),
    (h2.2.2.2.2.2.2 realMath_log10_sentinel).1 (by norm_num), ?_⟩
  rw [h3.1 (by norm_num)]
  have hz : flushMath.pow10 (-4000 / 10) = 0 := by
    show (if ((-4000 : ℝ) / 10) ≤ -324 then 0 else (10 : ℝ) ^ ((-4000 : ℝ) / 10)) = 0
    rw [if_pos (by norm_num)]
  rw [hz, if_neg (lt_irrefl 0)]

/-! ## Inserting a zero-loss stage: the noise figure -/

/-- A stage with unit gain and unit noise factor leaves the state of `calcNF` unchanged when
the running gain product is neither zero nor `NaN`. -/
theorem nfStep_unit_of_ne (st : JSNum K × JSNum K) (h0 : st.2 ≠ fin 0) (hn : st.2 ≠ nan)
    (e : NFEntry K) (hg : e.gain_lin = fin 1) (hf : e.nf_lin = fin 1) : nfStep st e = st := by
  obtain ⟨a, g⟩ := st
  unfold nfStep
  rw [hg, hf]
  have hz : (fin 1 - fin 1 : JSNum K) / g = fin 0 := by
    rw [fin_sub_fin, sub_self]
    cases g with
    | fin x =>
      have hx : x ≠ 0 := fun h => h0 (by rw [h])
      rw [fin_div_fin 0 hx, zero_div]
    | pinf => rfl
    | ninf => rfl
    | nan => exact absurd rfl hn
  refine Prod.ext ?_ ?_
  · show a + (fin 1 - fin 1) / g = a
    rw [hz]
    exact add_zero a
  · exact mul_one _

/-- In exact arithmetic `1 + (F − 1) / 1` is `F`, for every JavaScript number `F`. -/
theorem one_add_sub_one_div_one (F : JSNum K) : fin 1 + (F - fin 1) / fin 1 = F := by
  cases F with
  | fin f =>
    rw [fin_sub_fin, fin_div_fin _ one_ne_zero, fin_add_fin]
    congr 1
    ring
  | pinf =>
    show JSNum.add (fin 1) (JSNum.div (JSNum.add pinf (JSNum.neg (fin 1))) (fin 1)) = pinf
    simp [JSNum.add, JSNum.neg, JSNum.div, not_lt.2 (zero_le_one : (0 : K) ≤ 1)]
  | ninf =>
    show JSNum.add (fin 1) (JSNum.div (JSNum.add ninf (JSNum.neg (fin 1))) (fin 1)) = ninf
    simp [JSNum.add, JSNum.neg, JSNum.div, not_lt.2 (zero_le_one : (0 : K) ≤ 1)]
  | nan => rfl

/-- Inserting a stage of unit gain and unit noise factor at position `k` of a non-empty
chain leaves `calcNF` unchanged: at `k ≥ 1` when the running gain product after the first
`k` stages is neither zero nor `NaN`, at `k = 0` when `1 + (F_0 − 1) / 1` evaluates to
`F_0`. -/
theorem calcNF_insert_unit_of_ne (M : MathFns K) (L : List (NFEntry K)) (hL : L ≠ [])
    (e : NFEntry K) (hg : e.gain_lin = fin 1) (hf : e.nf_lin = fin 1) (k : ℕ) :
    (1 ≤ k → (nfStateAfter L k).2 ≠ fin 0 → (nfStateAfter L k).2 ≠ nan →
      calcNF M (L.take k ++ e :: L.drop k) = calcNF M L) ∧
    (k = 0 → fin 1 + (nfAt L 0 - fin 1) / fin 1 = nfAt L 0 →
      calcNF M (L.take k ++ e :: L.drop k) = calcNF M L) := by
  cases L with
  | nil => exact absurd rfl hL
  | cons c0 rest =>
    refine ⟨?_, ?_⟩
    · intro hk h0 hn
      obtain ⟨j, rfl⟩ : ∃ j, k = j + 1 := ⟨k - 1, by omega⟩
      simp only [nfStateAfter, Nat.add_sub_cancel] at h0 hn
      simp only [List.take_succ_cons, List.cons_append, List.drop_succ_cons, calcNF,
        List.foldl_append, List.foldl_cons]
      rw [nfStep_unit_of_ne _ h0 hn e hg hf, ← List.foldl_append, List.take_append_drop]
    · intro hk h1
      subst hk
      simp only [nfAt] at h1
      simp only [List.take_zero, List.nil_append, List.drop_zero, calcNF, List.foldl_cons]
      congr 3
      unfold nfStep
      rw [hg, hf]
      refine Prod.ext ?_ ?_
      · exact h1
      · exact one_mul _

/-- `dbToLin(0)` is `1` as soon as `Math.pow(10, 0)` is `1`. -/
theorem dbToLin_zero_of (M : MathFns K) (hM0 : M.pow10 0 = 1) : dbToLin M (fin 0) = fin 1 := by
  rw [dbToLin_fin_le M (by norm_num), zero_div, hM0]

/-- C10 (amended): for every non-empty chain, inserting a filter, attenuator or switch with
zero insertion loss (whatever its compression point) at a position `k ≥ 1` leaves the total
noise figure computed by `computeAll` unchanged, as a value and as shown, when the running
gain product `g_prod` of `calcNF` after the first `k` stages is neither zero nor `NaN`; at
position `0` it leaves it unchanged when `1 + (F_0 − 1) / 1` evaluates to `F_0`, the noise
factor of the first stage.  Only `Math.pow(10, 0) = 1` is assumed. -/
theorem nf_insert_unit_stage (M : MathFns K) (hM0 : M.pow10 0 = 1) (l : List (Stage K))
    (hl : l ≠ []) (k : ℕ) (s0 : Stage K)
    (ht : s0.type = StageType.filter ∨ s0.type = StageType.atten ∨ s0.type = StageType.switch)
    (hil : s0.insertion_loss_dB = some (fin 0)) :
    (1 ≤ k → (nfStateAfter (l.map (toNFEntry M)) k).2 ≠ fin 0 →
      (nfStateAfter (l.map (toNFEntry M)) k).2 ≠ nan →
      (cascadeValues M (l.take k ++ s0 :: l.drop k)).nfTotal_dB = (cascadeValues M l).nfTotal_dB ∧
      (computeAll M (l.take k ++ s0 :: l.drop k)).nfEl = (computeAll M l).nfEl) ∧
    (k = 0 →
      fin 1 + (nfAt (l.map (toNFEntry M)) 0 - fin 1) / fin 1 = nfAt (l.map (toNFEntry M)) 0 →
      (cascadeValues M (l.take k ++ s0 :: l.drop k)).nfTotal_dB = (cascadeValues M l).nfTotal_dB ∧
      (computeAll M (l.take k ++ s0 :: l.drop k)).nfEl = (computeAll M l).nfEl) := by
  have hne : l.map (toNFEntry M) ≠ [] := by simpa using hl
  have hg : (toNFEntry M s0).gain_lin = fin 1 := by
    show dbToLin M (effectiveDb s0).1 = fin 1
    rw [effectiveDb_zero_loss s0 ht hil, dbToLin_zero_of M hM0]
  have hf : (toNFEntry M s0).nf_lin = fin 1 := by
    show dbToLin M (effectiveDb s0).2 = fin 1
    rw [effectiveDb_zero_loss s0 ht hil, dbToLin_zero_of M hM0]
  have key := calcNF_insert_unit_of_ne M (l.map (toNFEntry M)) hne (toNFEntry M s0) hg hf k
  have hval : (cascadeValues M (l.take k ++ s0 :: l.drop k)).nfTotal_dB =
      calcNF M ((l.map (toNFEntry M)).take k ++ toNFEntry M s0 :: (l.map (toNFEntry M)).drop k) := by
    show calcNF M _ = _
    rw [List.map_append, List.map_cons, List.map_take, List.map_drop]
  have h1 : (l.take k ++ s0 :: l.drop k).length ≠ 0 := by simp
  have h2 : l.length ≠ 0 := by simpa using hl
  have hshow : (cascadeValues M (l.take k ++ s0 :: l.drop k)).nfTotal_dB
        = (cascadeValues M l).nfTotal_dB →
      (computeAll M (l.take k ++ s0 :: l.drop k)).nfEl = (computeAll M l).nfEl := by
    intro h
    simp only [computeAll, h1, h2, if_false, h]
  refine ⟨fun hk h0 hn => ?_, fun hk hF => ?_⟩
  · have h : (cascadeValues M (l.take k ++ s0 :: l.drop k)).nfTotal_dB
        = (cascadeValues M l).nfTotal_dB := by
      rw [hval, key.1 hk h0 hn]; rfl
    exact ⟨h, hshow h⟩
  · have h : (cascadeValues M (l.take k ++ s0 :: l.drop k)).nfTotal_dB
        = (cascadeValues M l).nfTotal_dB := by
      rw [hval, key.2 hk hF]; rfl
    exact ⟨h, hshow h⟩

/-- C10 (amended) at a one-amplifier chain, the zero-loss attenuator appended and
prepended. -/
theorem nf_insert_unit_stage_witness :
    (computeAll realMath [⟨"lna", StageType.ampli, some (fin 20), some (fin 1), some (fin 0),
        some (fin 18)⟩, ⟨"pad", StageType.atten, some (fin 0), some (fin 0), some (fin 0),
        some (fin 1000)⟩]).nfEl =
      (computeAll realMath [⟨"lna", StageType.ampli, some (fin 20), some (fin 1), some (fin 0),
        some (fin 18)⟩]).nfEl ∧
    (computeAll realMath [⟨"pad", StageType.atten, some (fin 0), some (fin 0), some (fin 0),
        some (fin 1000)⟩, ⟨"lna", StageType.ampli, some (fin 20), some (fin 1), some (fin 0),
        some (fin 18)⟩]).nfEl =
      (computeAll realMath [⟨"lna", StageType.ampli, some (fin 20), some (fin 1), some (fin 0),
        some (fin 18)⟩]).nfEl := by
  have hg : dbToLin realMath (fin 20) = fin (realMath.pow10 (20 / 10)) :=
    dbToLin_fin_le realMath (by norm_num)
  have hp : (0 : ℝ) < realMath.pow10 (20 / 10) := realMath_lawful.pow10_pos _
  have he : effectiveDb (⟨"lna", StageType.ampli, some (fin 20), some (fin 1), some (fin 0),
      some (fin 18)⟩ : Stage ℝ) = (fin 20, fin 1) := by
    simp [effectiveDb, jsOr, truthy]
  have hst : (nfStateAfter (List.map (toNFEntry realMath)
      [⟨"lna", StageType.ampli, some (fin 20), some (fin 1), some (fin 0), some (fin 18)⟩])
      1).2 = dbToLin realMath (fin 20) := by
    simp [nfStateAfter, toNFEntry, he]
  refine ⟨((nf_insert_unit_stage realMath realMath_lawful.pow10_zero
      [⟨"lna", StageType.ampli, some (fin 20), some (fin 1), some (fin 0), some (fin 18)⟩]
      (by simp) 1 ⟨"pad", StageType.atten, some (fin 0), some (fin 0), some (fin 0),
        some (fin 1000)⟩ (Or.inr (Or.inl rfl)) rfl).1 (le_refl 1) ?_ ?_).2,
    ((nf_insert_unit_stage realMath realMath_lawful.pow10_zero
      [⟨"lna", StageType.ampli, some (fin 20), some (fin 1), some (fin 0), some (fin 18)⟩]
      (by simp) 0 ⟨"pad", StageType.atten, some (fin 0), some (fin 0), some (fin 0),
        some (fin 1000)⟩ (Or.inr (Or.inl rfl)) rfl).2 rfl
      (one_add_sub_one_div_one _)).2⟩
  · rw [hst, hg]
    intro h
    injection h with h
    exact hp.ne.symm h
  · rw [hst, hg]
    exact fun h => JSNum.noConfusion h

/-- C10 fails on the code: for the single attenuator of `4000` dB, whose linear gain
`Math.pow(10, -400)` underflows to `0`, the total noise figure is shown as `3000`, and with
a zero-loss filter appended `calcNF` adds `(1 − 1) / 0 = NaN` and the placeholder is
shown. -/
theorem nf_insert_underflow :
    (computeAll flushMath [⟨"pad", StageType.atten, some (fin 0), some (fin 0),
        some (fin 4000), some (fin 23)⟩]).nfEl = some 3000 ∧
    (computeAll flushMath [⟨"pad", StageType.atten, some (fin 0), some (fin 0),
        some (fin 4000), some (fin 23)⟩, ⟨"thru", StageType.filter, some (fin 0),
        some (fin 0), some (fin 0), some (fin 1000)⟩]).nfEl = none := by
  have he : effectiveDb (⟨"pad", StageType.atten, some (fin 0), some (fin 0),
      some (fin 4000), some (fin 23)⟩ : Stage ℝ) = (fin (-4000), fin 4000) := by
    simp [effectiveDb, jsOr, truthy]
  have he0 : effectiveDb (⟨"thru", StageType.filter, some (fin 0), some (fin 0),
      some (fin 0), some (fin 1000)⟩ : Stage ℝ) = (fin 0, fin 0) :=
    effectiveDb_zero_loss _ (Or.inl rfl) rfl
  have hg : dbToLin flushMath (fin (-4000)) = fin 0 := by
    rw [dbToLin_fin_le flushMath (by norm_num)]
    show fin (if ((-4000 : ℝ) / 10) ≤ -324 then 0 else (10 : ℝ) ^ ((-4000 : ℝ) / 10)) = fin 0
    rw [if_pos (by norm_num)]
  have hf : dbToLin flushMath (fin 4000) = fin sentinel :=
    dbToLin_fin_gt flushMath (by norm_num)
  have h1 : dbToLin flushMath (fin 0) = fin 1 := dbToLin_zero_of flushMath flushMath_pow10_zero
  have h3000 : linToDb flushMath (fin sentinel) = fin 3000 := by
    rw [linToDb_fin_pos flushMath sentinel_pos]
    have : flushMath.log10 sentinel = 300 := realMath_log10_sentinel
    rw [this]
    norm_num
  refine ⟨?_, ?_⟩
  · simp [computeAll, cascadeValues, calcNF, toNFEntry, he, hg, hf, h3000, shown]
  · have hnan : (fin sentinel : JSNum ℝ) + fin 0 / fin 0 = nan := by
      show JSNum.add (fin sentinel) (JSNum.div (fin 0) (fin 0)) = nan
      simp [JSNum.add, JSNum.div, signedInf]
    have hl : linToDb flushMath nan = nan := by
      simp [linToDb, le, lt, strictEq, mathLog10]
      rfl
    simp [computeAll, cascadeValues, calcNF, toNFEntry, he, he0, hg, hf, h1, nfStep, hnan, hl,
      shown]

/-! ## Inserting a non-limiting stage: the compression point, step by step -/

/-- The first loop of `calcP1db` started on a non-empty array: the array is a suffix. -/
theorem foldr_gainAfter (A : List (P1Entry K)) (acc : List (JSNum K)) (p : JSNum K) :
    A.foldr (fun c st => (st.2 :: st.1, st.2 * c.gain_lin)) (acc, p) =
      ((A.foldr (fun c st => (st.2 :: st.1, st.2 * c.gain_lin)) ([], p)).1 ++ acc,
        (A.foldr (fun c st => (st.2 :: st.1, st.2 * c.gain_lin)) ([], p)).2) := by
  induction A with
  | nil => rfl
  | cons c r ih =>
    rw [List.foldr_cons, ih]
    simp only [List.foldr_cons, List.cons_append]

/-- The first loop of `calcP1db` yields one `gain_after` per stage. -/
theorem foldr_gainAfter_length (A : List (P1Entry K)) (p : JSNum K) :
    (A.foldr (fun c st => (st.2 :: st.1, st.2 * c.gain_lin))
      (([] : List (JSNum K)), p)).1.length = A.length := by
  induction A with
  | nil => rfl
  | cons c r ih =>
    rw [List.foldr_cons]
    simp only [List.length_cons, ih]

/-- The zipped list of the second loop of `calcP1db` for a chain `A ++ B`, and for the same
chain with a stage of unit gain inserted between `A` and `B`. -/
theorem zip_gainAfter_append (A B : List (P1Entry K)) (e : P1Entry K)
    (he : e.gain_lin = fin 1) :
    ∃ ZA : List (P1Entry K × JSNum K), ZA.length = A.length ∧
      (A ++ B).zip (gainAfterLoop (A ++ B)).1 = ZA ++ B.zip (gainAfterLoop B).1 ∧
      (A ++ e :: B).zip (gainAfterLoop (A ++ e :: B)).1 =
        ZA ++ (e, (gainAfterLoop B).2) :: B.zip (gainAfterLoop B).1 := by
  have hlen := foldr_gainAfter_length A (gainAfterLoop B).2
  refine ⟨A.zip (A.foldr (fun c st => (st.2 :: st.1, st.2 * c.gain_lin))
    (([] : List (JSNum K)), (gainAfterLoop B).2)).1, ?_, ?_, ?_⟩
  · rw [List.length_zip, hlen, Nat.min_self]
  · have h : gainAfterLoop (A ++ B) =
        A.foldr (fun c st => (st.2 :: st.1, st.2 * c.gain_lin)) (gainAfterLoop B) := by
      unfold gainAfterLoop
      rw [List.foldr_append]
    rw [h, show gainAfterLoop B = ((gainAfterLoop B).1, (gainAfterLoop B).2) from rfl,
      foldr_gainAfter]
    exact List.zip_append hlen.symm
  · have h : gainAfterLoop (A ++ e :: B) =
        A.foldr (fun c st => (st.2 :: st.1, st.2 * c.gain_lin))
          ((gainAfterLoop B).2 :: (gainAfterLoop B).1, (gainAfterLoop B).2) := by
      unfold gainAfterLoop
      rw [List.foldr_append, List.foldr_cons, he]
      congr 2
      exact mul_one _
    rw [h, foldr_gainAfter]
    simp only
    rw [List.zip_append hlen.symm, List.zip_cons_cons]

/-- Inserting a stage of unit gain at position `k` changes the computation of `calcP1db`
by one step of its second loop: the step of the inserted stage, taken after the first `k`
stages with the gain of the stages after it. -/
theorem calcP1db_insert_unit (M : MathFns K) (L : List (P1Entry K)) (hL : L ≠ []) (k : ℕ)
    (e : P1Entry K) (he : e.gain_lin = fin 1) :
    calcP1db M L = p1FromInvSum M (invSumFrom L k (invSumAfter L k)) ∧
    calcP1db M (L.take k ++ e :: L.drop k) =
      p1FromInvSum M (invSumFrom L k (invSumStep (invSumAfter L k) (e, gainFrom L k))) := by
  have h0 : L.length ≠ 0 := by simpa using hL
  have h1 : (L.take k ++ e :: L.drop k).length ≠ 0 := by simp
  obtain ⟨ZA, hZA, hz1, hz2⟩ := zip_gainAfter_append (L.take k) (L.drop k) e he
  rw [List.take_append_drop] at hz1
  have htake : (ZA ++ (L.drop k).zip (gainAfterLoop (L.drop k)).1).take k = ZA ∧
      (ZA ++ (L.drop k).zip (gainAfterLoop (L.drop k)).1).drop k =
        (L.drop k).zip (gainAfterLoop (L.drop k)).1 := by
    rcases le_or_lt k L.length with hk | hk
    · have : ZA.length = k := by rw [hZA, List.length_take, Nat.min_eq_left hk]
      exact ⟨List.take_left' this, List.drop_left' this⟩
    · have hd : L.drop k = [] := List.drop_eq_nil_of_le hk.le
      have hl : ZA.length ≤ k := by
        rw [hZA, List.length_take]
        exact Nat.min_le_left _ _
      rw [hd]
      simp only [List.zip_nil_left, List.append_nil]
      exact ⟨List.take_of_length_le hl, List.drop_eq_nil_of_le hl⟩
  refine ⟨?_, ?_⟩
  · unfold calcP1db p1FromInvSum invSumFrom invSumAfter
    simp only [h0, if_false]
    rw [← List.foldl_append, List.take_append_drop]
  · unfold calcP1db p1FromInvSum invSumFrom invSumAfter gainFrom
    simp only [h1, if_false]
    rw [hz2, hz1, htake.1, htake.2, List.foldl_append, List.foldl_cons]

/-- C11 (amended): for every non-empty chain and every insertion position `k`, inserting a
zero-loss filter, attenuator or switch with a non-limiting compression point changes the
computation of the output P1dB by one addition only: after the terms of the first `k`
stages, the term `1 / (1e300 · g)` of the inserted stage is added to `inv_sum`, `g` being
the product of the gains of the stages from position `k` on, and the loop goes on as
before.  So the output P1dB is unchanged, as a value and as shown, whenever that addition
leaves `inv_sum` as it was.  Only `Math.pow(10, 0) = 1` is assumed. -/
theorem p1_insert_one_term (M : MathFns K) (hM0 : M.pow10 0 = 1) (l : List (Stage K))
    (hl : l ≠ []) (k : ℕ) (s0 : Stage K)
    (ht : s0.type = StageType.filter ∨ s0.type = StageType.atten ∨ s0.type = StageType.switch)
    (hil : s0.insertion_loss_dB = some (fin 0))
    (hp : s0.op1db_dBm = none ∨ ∃ c : K, 500 < c ∧ s0.op1db_dBm = some (fin c)) :
    (cascadeValues M l).p1_out =
      p1FromInvSum M (invSumFrom (l.map (toP1Entry M)) k
        (invSumAfter (l.map (toP1Entry M)) k)) ∧
    (cascadeValues M (l.take k ++ s0 :: l.drop k)).p1_out =
      p1FromInvSum M (invSumFrom (l.map (toP1Entry M)) k
        (invSumAfter (l.map (toP1Entry M)) k +
          fin 1 / (fin sentinel * gainFrom (l.map (toP1Entry M)) k))) ∧
    (invSumAfter (l.map (toP1Entry M)) k +
        fin 1 / (fin sentinel * gainFrom (l.map (toP1Entry M)) k) =
      invSumAfter (l.map (toP1Entry M)) k →
      (cascadeValues M (l.take k ++ s0 :: l.drop k)).p1_out = (cascadeValues M l).p1_out ∧
      (computeAll M (l.take k ++ s0 :: l.drop k)).opOutEl = (computeAll M l).opOutEl) := by
  have hne : l.map (toP1Entry M) ≠ [] := by simpa using hl
  have hg : (toP1Entry M s0).gain_lin = fin 1 := by
    show dbToLin M (effectiveDb s0).1 = fin 1
    rw [effectiveDb_zero_loss s0 ht hil, dbToLin_zero_of M hM0]
  have hs : (toP1Entry M s0).p1_lin = fin sentinel := stageP1Lin_nonlimiting M s0 hp
  obtain ⟨h1, h2⟩ := calcP1db_insert_unit M (l.map (toP1Entry M)) hne k (toP1Entry M s0) hg
  rw [invSumStep_sentinel _ _ hs] at h2
  have hout : (cascadeValues M l).p1_out = calcP1db M (l.map (toP1Entry M)) := rfl
  have hout' : (cascadeValues M (l.take k ++ s0 :: l.drop k)).p1_out =
      calcP1db M ((l.map (toP1Entry M)).take k ++
        toP1Entry M s0 :: (l.map (toP1Entry M)).drop k) := by
    show calcP1db M _ = _
    rw [List.map_append, List.map_cons, List.map_take, List.map_drop]
  refine ⟨hout.trans h1, hout'.trans h2, fun habs => ?_⟩
  have heq : (cascadeValues M (l.take k ++ s0 :: l.drop k)).p1_out
      = (cascadeValues M l).p1_out := by
    rw [hout', h2, habs, hout, h1]
  have hl1 : (l.take k ++ s0 :: l.drop k).length ≠ 0 := by simp
  have hl2 : l.length ≠ 0 := by simpa using hl
  refine ⟨heq, ?_⟩
  simp only [computeAll, hl1, hl2, if_false, heq]

/-- C11 (amended) at a one-amplifier chain with a zero-loss attenuator appended, and at a
chain where the added term leaves `inv_sum` as it was (`+Infinity`, after an underflow). -/
theorem p1_insert_one_term_witness :
    (cascadeValues realMath [⟨"lna", StageType.ampli, some (fin 20), some (fin 1), some (fin 0),
        some (fin 18)⟩, ⟨"pad", StageType.atten, some (fin 0), some (fin 0), some (fin 0),
        some (fin 1000)⟩]).p1_out =
      p1FromInvSum realMath (invSumFrom (List.map (toP1Entry realMath)
        [⟨"lna", StageType.ampli, some (fin 20), some (fin 1), some (fin 0), some (fin 18)⟩]) 1
        (invSumAfter (List.map (toP1Entry realMath)
          [⟨"lna", StageType.ampli, some (fin 20), some (fin 1), some (fin 0),
            some (fin 18)⟩]) 1 +
          fin 1 / (fin sentinel * gainFrom (List.map (toP1Entry realMath)
            [⟨"lna", StageType.ampli, some (fin 20), some (fin 1), some (fin 0),
              some (fin 18)⟩]) 1))) ∧
    (computeAll flushMath [⟨"lna", StageType.ampli, some (fin 20), some (fin 1), some (fin 0),
        some (fin 18)⟩, ⟨"thru", StageType.filter, some (fin 0), some (fin 0), some (fin 0),
        some (fin 1000)⟩, ⟨"pad", StageType.atten, some (fin 0), some (fin 0),
        some (fin 4000), some (fin 1000)⟩]).opOutEl =
      (computeAll flushMath [⟨"lna", StageType.ampli, some (fin 20), some (fin 1), some (fin 0),
        some (fin 18)⟩, ⟨"pad", StageType.atten, some (fin 0), some (fin 0),
        some (fin 4000), some (fin 1000)⟩]).opOutEl := by
  refine ⟨(p1_insert_one_term realMath realMath_lawful.pow10_zero
      [⟨"lna", StageType.ampli, some (fin 20), some (fin 1), some (fin 0), some (fin 18)⟩]
      (by simp) 1 ⟨"pad", StageType.atten, some (fin 0), some (fin 0), some (fin 0),
        some (fin 1000)⟩ (Or.inr (Or.inl rfl)) rfl (Or.inr ⟨1000, by norm_num, rfl⟩)).2.1,
    ((p1_insert_one_term flushMath flushMath_pow10_zero
      [⟨"lna", StageType.ampli, some (fin 20), some (fin 1), some (fin 0), some (fin 18)⟩,
        ⟨"pad", StageType.atten, some (fin 0), some (fin 0), some (fin 4000),
          some (fin 1000)⟩]
      (by simp) 1 ⟨"thru", StageType.filter, some (fin 0), some (fin 0), some (fin 0),
        some (fin 1000)⟩ (Or.inl rfl) rfl (Or.inr ⟨1000, by norm_num, rfl⟩)).2.2 ?_).2⟩
  have he2 : effectiveDb (⟨"pad", StageType.atten, some (fin 0), some (fin 0),
      some (fin 4000), some (fin 1000)⟩ : Stage ℝ) = (fin (-4000), fin 4000) := by
    simp [effectiveDb, jsOr, truthy]
  have hg2 : dbToLin flushMath (fin (-4000)) = fin 0 := by
    rw [dbToLin_fin_le flushMath (by norm_num)]
    show fin (if ((-4000 : ℝ) / 10) ≤ -324 then 0 else (10 : ℝ) ^ ((-4000 : ℝ) / 10)) = fin 0
    rw [if_pos (by norm_num)]
  have hp1 : stageP1Lin flushMath ⟨"lna", StageType.ampli, some (fin 20), some (fin 1),
      some (fin 0), some (fin 18)⟩ = fin ((10 : ℝ) ^ ((18 : ℝ) / 10)) := by
    have h18 : ¬ ((18 : ℝ) / 10 ≤ -324) := by norm_num
    have h500 : ¬ ((500 : ℝ) < 18) := by norm_num
    simp [stageP1Lin, stageOp1, jsOr, truthy, gt, lt, h500, mathPow10, flushMath, h18]
  have hpos : (0 : ℝ) < (10 : ℝ) ^ ((18 : ℝ) / 10) := Real.rpow_pos_of_pos (by norm_num) _
  have hdiv0 : (fin 1 : JSNum ℝ) / fin 0 = pinf := by
    show JSNum.div (fin 1) (fin 0) = pinf
    simp [JSNum.div, signedInf]
  have hA : invSumAfter (List.map (toP1Entry flushMath)
      [⟨"lna", StageType.ampli, some (fin 20), some (fin 1), some (fin 0), some (fin 18)⟩,
        ⟨"pad", StageType.atten, some (fin 0), some (fin 0), some (fin 4000),
          some (fin 1000)⟩]) 1 = pinf := by
    simp only [invSumAfter, List.map_cons, List.map_nil, gainAfterLoop, List.foldr_cons,
      List.foldr_nil, List.zip_cons_cons, List.zip_nil_right, List.take_succ_cons,
      List.take_zero, List.foldl_cons, List.foldl_nil, toP1Entry, he2, hg2, hp1, invSumStep,
      isFinite, le, lt, strictEq, hpos.not_lt, hpos.ne.symm, fin_mul_fin, mul_zero,
      Bool.not_true, decide_False, Bool.or_self, Bool.false_eq_true, if_false, hdiv0]
    rfl
  have hT : (fin 1 : JSNum ℝ) / (fin sentinel * gainFrom (List.map (toP1Entry flushMath)
      [⟨"lna", StageType.ampli, some (fin 20), some (fin 1), some (fin 0), some (fin 18)⟩,
        ⟨"pad", StageType.atten, some (fin 0), some (fin 0), some (fin 4000),
          some (fin 1000)⟩]) 1) = pinf := by
    simp only [gainFrom, List.map_cons, List.map_nil, List.drop_succ_cons, List.drop_zero,
      gainAfterLoop, List.foldr_cons, List.foldr_nil, toP1Entry, he2, hg2, fin_mul_fin,
      mul_zero, hdiv0]
  rw [hA, hT]
  rfl

end ArchiVerif
